import Mathlib

/-!
Verification development for the autel-fw-parser repository.

The Rust sources are shallowly embedded over `List Nat` byte buffers:
`src/parser.rs` (find_tag, extract_filename, parse_file_entries),
`src/zip_utils.rs` (slice_to_eocd), `src/file_types.rs` (detect_file_type)
and the control flow of `src/processor.rs` (process_zip).  Loops are
translated as structurally recursive functions over an explicit iteration
budget that the wrappers instantiate with an upper bound on the number of
iterations the source loop can perform, so that every definition is
executable by kernel reduction.  Rust `usize` arithmetic is modelled by
`Nat` (the quantities involved are far below `2^64`, so no wrap occurs).
-/

namespace AutelFw

/-- Byte read `l[i]`, defaulting to `0`; used only where the source code
guards the index to be in bounds (the checked variants below model the
panic behaviour of unguarded reads). -/
def nthD (l : List Nat) (i : Nat) : Nat := (l[i]?).getD 0

/-- The half-open slice `l[a..c]` of the source language. -/
def sliceL (l : List Nat) (a c : Nat) : List Nat := (l.drop a).take (c - a)

/-- Model of the non-panicking read `buf.get(k..k+4).and_then(try_into)`
used by the source for the 4-byte header and content-meta fields. -/
def get4 (l : List Nat) (k : Nat) : Option (List Nat) :=
  if k + 4 ≤ l.length then some (sliceL l k (k + 4)) else none

/-- First-hit linear search from index `i` with an explicit iteration
budget: the common shape of the source `for`-loops that return the first
index satisfying a predicate. -/
def searchFrom (p : Nat → Bool) (i : Nat) : Nat → Option Nat
  | 0 => none
  | fuel + 1 => if p i then some i else searchFrom p (i + 1) fuel

/-- No two adjacent bytes of the list are `(x, y)`. -/
def pairFree (x y : Nat) : List Nat → Bool
  | [] => true
  | [_] => true
  | a :: b :: rest => !(a == x && b == y) && pairFree x y (b :: rest)

/-- Whether `pre` is an initial segment of `l`. -/
def startsWithSeq : List Nat → List Nat → Bool
  | [], _ => true
  | _ :: _, [] => false
  | a :: as, b :: bs => a == b && startsWithSeq as bs

/-- Whether `suf` is a final segment of `l` (Rust `str::ends_with`). -/
def endsWithSeq (suf l : List Nat) : Bool := startsWithSeq suf.reverse l.reverse

/-- Whether `needle` occurs contiguously inside `hay` (Rust
`str::contains` for an ASCII needle). -/
def containsSeq (needle hay : List Nat) : Bool :=
  (searchFrom (fun k => startsWithSeq needle (hay.drop k)) 0 (hay.length + 1)).isSome

/-- Big-endian 32-bit value of four bytes (`u32::from_be_bytes`). -/
def be32 (a b c d : Nat) : Nat := ((a * 256 + b) * 256 + c) * 256 + d

/-- The four big-endian bytes of a value below `2^32`
(`u32::to_be_bytes`). -/
def be32bytes (n : Nat) : List Nat :=
  [n / 16777216 % 256, n / 65536 % 256, n / 256 % 256, n % 256]

/-- Little-endian 16-bit value of two bytes (`u16::from_le_bytes`). -/
def le16 (a b : Nat) : Nat := a + 256 * b

/-- Lower bound for the first continuation byte of a 3-byte UTF-8
sequence with leading byte `b0`. -/
def cont3lo (b0 : Nat) : Nat := if b0 = 224 then 160 else 128

/-- Upper bound for the first continuation byte of a 3-byte UTF-8
sequence with leading byte `b0`. -/
def cont3hi (b0 : Nat) : Nat := if b0 = 237 then 159 else 191

/-- Lower bound for the first continuation byte of a 4-byte UTF-8
sequence with leading byte `b0`. -/
def cont4lo (b0 : Nat) : Nat := if b0 = 240 then 144 else 128

/-- Upper bound for the first continuation byte of a 4-byte UTF-8
sequence with leading byte `b0`. -/
def cont4hi (b0 : Nat) : Nat := if b0 = 244 then 143 else 191

/-- Strict UTF-8 decoding of a byte list into its scalar values, `none`
on any ill-formed input (overlong forms, surrogates, values above
`0x10FFFF`, truncated sequences): the validation performed by Rust
`std::str::from_utf8`. -/
def utf8Decode : List Nat → Option (List Nat)
  | [] => some []
  | b0 :: rest =>
    if b0 < 128 then (utf8Decode rest).map (fun cs => b0 :: cs)
    else if b0 < 194 then none
    else if b0 < 224 then
      match rest with
      | b1 :: rest2 =>
        if 128 ≤ b1 ∧ b1 < 192 then
          (utf8Decode rest2).map (fun cs => ((b0 - 192) * 64 + (b1 - 128)) :: cs)
        else none
      | [] => none
    else if b0 < 240 then
      match rest with
      | b1 :: b2 :: rest2 =>
        if (cont3lo b0 ≤ b1 ∧ b1 ≤ cont3hi b0) ∧ (128 ≤ b2 ∧ b2 < 192) then
          (utf8Decode rest2).map
            (fun cs => ((b0 - 224) * 4096 + (b1 - 128) * 64 + (b2 - 128)) :: cs)
        else none
      | _ => none
    else if b0 < 245 then
      match rest with
      | b1 :: b2 :: b3 :: rest2 =>
        if (cont4lo b0 ≤ b1 ∧ b1 ≤ cont4hi b0) ∧ (128 ≤ b2 ∧ b2 < 192)
            ∧ (128 ≤ b3 ∧ b3 < 192) then
          (utf8Decode rest2).map
            (fun cs =>
              ((b0 - 240) * 262144 + (b1 - 128) * 4096 + (b2 - 128) * 64 + (b3 - 128)) :: cs)
        else none
      | _ => none
    else none

/-- Rust `str::trim_matches('"')` on the decoded scalar values: strip
every leading and trailing quote character. -/
def trimQuotes (cs : List Nat) : List Nat :=
  ((cs.dropWhile (fun c => c == 34)).reverse.dropWhile (fun c => c == 34)).reverse

/-- Rust `u8::is_ascii_whitespace`. -/
def isAsciiWs (b : Nat) : Bool := b == 32 || b == 9 || b == 10 || b == 12 || b == 13

/-! ## src/parser.rs -/

/-- Scalar values of the top-level marker `<filetransfer>`. -/
def ftStr : List Nat := [60, 102, 105, 108, 101, 116, 114, 97, 110, 115, 102, 101, 114, 62]

/-- Scalar values of the file-info marker `<fileinfo>`. -/
def fiStr : List Nat := [60, 102, 105, 108, 101, 105, 110, 102, 111, 62]

/-- Scalar values of the file-content marker `<filecontent>`. -/
def fcStr : List Nat := [60, 102, 105, 108, 101, 99, 111, 110, 116, 101, 110, 116, 62]

/-- Condition of the inner loop of `find_tag`: byte `j` is `>` and byte
`j+1` exists and is `"`. -/
def tagCloseAt (b : List Nat) (j : Nat) : Bool :=
  (nthD b j == 62) && (b[j + 1]? == some 34)

/-- Inner loop of `find_tag`: first `j` in `i+2 .. len-1` closing a
quoted tag. -/
def findTagEnd (b : List Nat) (i : Nat) : Option Nat :=
  searchFrom (tagCloseAt b) (i + 2) (b.length - 1 - (i + 2))

/-- Outer loop of `find_tag`: scan for `"` `<`, then for a closing `>`
`"`; on an opener whose closing search fails advance by two, otherwise by
one. -/
def findTagGo (b : List Nat) (i : Nat) : Nat → Option (Nat × List Nat)
  | 0 => none
  | fuel + 1 =>
    if i < b.length - 3 then
      if nthD b i = 34 ∧ nthD b (i + 1) = 60 then
        match findTagEnd b i with
        | some j => some (i, sliceL b i (j + 2))
        | none => findTagGo b (i + 2) fuel
      else findTagGo b (i + 1) fuel
    else none

/-- `find_tag(buffer, start)` of src/parser.rs: position and full quoted
bytes of the next tag, if any.  The loop advances by at least one per
iteration and stops once the position reaches `len - 3`, so a budget of
`len + 1` iterations never runs out. -/
def find_tag (b : List Nat) (start : Nat) : Option (Nat × List Nat) :=
  findTagGo b start (b.length + 1)

/-- A parsed sub-payload record (`FileEntry` of src/file_entry.rs); the
filename is carried as decoded Unicode scalar values. -/
structure FileEntry where
  filename : Option (List Nat)
  header_data : Option (List Nat)
  content_length : Nat
  content_meta : Option (List Nat)
  content : List Nat
  raw_content_data : List Nat
  content_data_offset : Nat
deriving DecidableEq, Repr

/-- `extract_filename(info_data)` of src/parser.rs. -/
def extract_filename (info : List Nat) : Option (List Nat) × Option (List Nat) :=
  if info.length < 8 then (none, none)
  else
    let name_len := be32 (nthD info 0) (nthD info 1) (nthD info 2) (nthD info 3)
    let header_bytes := get4 info 4
    if info.length < 8 + name_len then (none, header_bytes)
    else ((utf8Decode (sliceL info 8 (8 + name_len))).map trimQuotes, header_bytes)

/-- One iteration of the `parse_file_entries` loop: `none` when the loop
breaks, otherwise the optionally emitted record and the next scan
position. -/
def parseStep (b : List Nat) (pos : Nat) : Option (Option FileEntry × Nat) :=
  match find_tag b pos with
  | none => none
  | some (start, tagBytes) =>
    match utf8Decode tagBytes with
    | none => some (none, start + 1)
    | some tagCs =>
      if trimQuotes tagCs ≠ ftStr then some (none, start + tagBytes.length)
      else
        match find_tag b (start + tagBytes.length) with
        | none => none
        | some (infoStart, infoTagBytes) =>
          if trimQuotes ((utf8Decode infoTagBytes).getD []) ≠ fiStr then
            some (none, infoStart + infoTagBytes.length)
          else
            let infoDataStart := infoStart + infoTagBytes.length
            let nextTagAfterInfo :=
              match find_tag b infoDataStart with
              | some (i, _) => i
              | none => b.length
            let fh := extract_filename (sliceL b infoDataStart nextTagAfterInfo)
            match find_tag b nextTagAfterInfo with
            | none => none
            | some (contentStart, contentTagBytes) =>
              if trimQuotes ((utf8Decode contentTagBytes).getD []) ≠ fcStr then
                some (none, contentStart + contentTagBytes.length)
              else
                let cds := contentStart + contentTagBytes.length
                if cds + 8 ≤ b.length then
                  let declaredLen :=
                    be32 (nthD b cds) (nthD b (cds + 1)) (nthD b (cds + 2)) (nthD b (cds + 3))
                  let contentEnd := cds + 8 + declaredLen
                  let ace := min contentEnd b.length
                  some (some { filename := fh.1, header_data := fh.2,
                               content_length := declaredLen,
                               content_meta := get4 b (cds + 4),
                               content := sliceL b (cds + 8) ace,
                               raw_content_data := sliceL b cds ace,
                               content_data_offset := cds }, ace)
                else
                  some (some { filename := fh.1, header_data := fh.2,
                               content_length := 0, content_meta := none,
                               content := [],
                               raw_content_data := sliceL b cds (min cds b.length),
                               content_data_offset := cds }, cds)

/-- Iterated parse loop with an explicit iteration budget. -/
def parseGo (b : List Nat) (pos : Nat) : Nat → List FileEntry
  | 0 => []
  | fuel + 1 =>
    if pos < b.length then
      match parseStep b pos with
      | none => []
      | some (oe, p2) => oe.toList ++ parseGo b p2 fuel
    else []

/-- Parse loop started at an arbitrary position; every iteration strictly
increases the position (see the progress theorem below), so `len + 1`
iterations always suffice. -/
def parseAll (b : List Nat) (pos : Nat) : List FileEntry := parseGo b pos (b.length + 1)

/-- `parse_file_entries(buffer)` of src/parser.rs. -/
def parse_file_entries (b : List Nat) : List FileEntry := parseAll b 0

/-! ## src/zip_utils.rs -/

/-- The end-of-central-directory signature `PK\x05\x06`. -/
def eocdSig : List Nat := [80, 75, 5, 6]

/-- Guard of the `slice_to_eocd` loop body at offset `i`. -/
def eocdCheck (d : List Nat) (i : Nat) : Bool :=
  decide (i + 4 ≤ d.length) && (sliceL d i (i + 4) == eocdSig) && decide (i + 22 ≤ d.length)

/-- Result slice once the signature was found at offset `i`. -/
def eocdTake (d : List Nat) (i : Nat) : List Nat :=
  let commentLen := le16 (nthD d (i + 20)) (nthD d (i + 21))
  if i + 22 + commentLen ≤ d.length then d.take (i + 22 + commentLen) else d

/-- Backward scan of `slice_to_eocd` from offset `k` down to `0`. -/
def eocdFrom (d : List Nat) : Nat → Option (List Nat)
  | 0 => if eocdCheck d 0 then some (eocdTake d 0) else none
  | i + 1 => if eocdCheck d (i + 1) then some (eocdTake d (i + 1)) else eocdFrom d i

/-- `slice_to_eocd(data)` of src/zip_utils.rs. -/
def slice_to_eocd (d : List Nat) : Option (List Nat) := eocdFrom d (d.length - 22)

/-! ## src/file_types.rs -/

/-- The detected file formats (`FileType` of src/file_types.rs). -/
inductive FileType where
  | AutelContainer
  | Zip
  | Gzip
  | Json
  | UpgGimbal
  | UpgFcs
  | UpgBms
  | UpgEsc
  | UpgRcMcu
  | GpsBin
  | Text
  | Unknown
deriving DecidableEq, Repr

/-- First 14 bytes of the quoted container tag, the needle of the
`windows(14).position` scan. -/
def ftPat14 : List Nat := [34, 60, 102, 105, 108, 101, 116, 114, 97, 110, 115, 102, 101, 114]

/-- The `data.windows(14).position(..)` scan for the leading 14 bytes of
the quoted container tag; a list of length `len` has `len + 1 - 14`
windows of width 14. -/
def windowsPos14 (d : List Nat) : Option Nat :=
  searchFrom (fun p => sliceL d p (p + 14) == ftPat14) 0 (d.length + 1 - 14)

/-- Body of the second container scan at index `i`: a `"` `<` opener
whose following 16 bytes decode as UTF-8 and contain `<filetransfer>`. -/
def autelLoopHit (d : List Nat) (i : Nat) : Bool :=
  (sliceL d i (i + 2) == [34, 60]) &&
    (match utf8Decode (sliceL d i (i + min 16 (d.length - i))) with
     | some s => containsSeq ftStr s
     | none => false)

/-- Second container scan: `for i in 0..100.min(len - 16)` returning the
first hit. -/
def autelLoop2 (d : List Nat) : Option Nat :=
  searchFrom (autelLoopHit d) 0 (min 100 (d.length - 16))

/-- Combined container-marker scan of `detect_file_type` (both returns
of the `data.len() >= 16` block yield `AutelContainer`). -/
def containerHit (d : List Nat) : Bool :=
  decide (16 ≤ d.length) &&
    ((match windowsPos14 d with
      | some p => decide (p < 100)
      | none => false) ||
     (autelLoop2 d).isSome)

/-- Final UTF-8 / JSON sniff of `detect_file_type`. -/
def utf8Fallback (d : List Nat) : FileType :=
  match utf8Decode d with
  | some _ =>
    let trimmed := (d.findIdx? (fun b => !isAsciiWs b)).getD 0
    if trimmed < d.length ∧ (nthD d trimmed = 123 ∨ nthD d trimmed = 91) then FileType.Json
    else FileType.Text
  | none => FileType.Unknown

/-- `detect_file_type(data, filename)` of src/file_types.rs. -/
def detect_file_type (d : List Nat) (filename : Option (List Nat)) : FileType :=
  if d.length < 4 then FileType.Unknown
  else if containerHit d then FileType.AutelContainer
  else if sliceL d 0 4 = [80, 75, 3, 4] then FileType.Zip
  else if 2 ≤ d.length ∧ sliceL d 0 2 = [31, 139] then FileType.Gzip
  else if sliceL d 0 4 = [52, 18, 239, 190] then
    (if 5 ≤ d.length ∧ nthD d 4 = 14 then FileType.UpgRcMcu else FileType.UpgGimbal)
  else if sliceL d 0 4 = [85, 80, 70, 83] then FileType.UpgFcs
  else if sliceL d 0 4 = [2, 170, 85, 170] then FileType.UpgBms
  else if sliceL d 0 4 = [0, 0, 0, 0] ∧ 5 ≤ d.length
      ∧ 20 ≤ nthD d 4 ∧ nthD d 4 ≤ 23 then FileType.UpgEsc
  else if 8 ≤ d.length ∧ sliceL d 0 8 = [64, 84, 68, 49, 48, 53, 48, 120] then FileType.GpsBin
  else
    match filename with
    | some name =>
      if endsWithSeq [46, 106, 115, 111, 110] name then FileType.Json
      else if endsWithSeq [46, 122, 105, 112] name then FileType.Zip
      else utf8Fallback d
    | none => utf8Fallback d

/-! ## src/processor.rs (process_zip)

The archive decoder (`zip::ZipArchive`), the recursive `process_file`
call and the filesystem are the external collaborators of §6 of the
design; they enter the model as parameters (`openArchive`, whose `none`
models a decode failure, and `processChild`), and observable effects are
the bytes written and the buffers recursed into.  Output path
construction is a collaborator concern and is not modelled. -/

/-- One archive member: its path-like name and its bytes (`none` models
a read error of the member stream). -/
structure ZipMember where
  name : List Nat
  contents : Option (List Nat)
deriving DecidableEq, Repr

/-- Observable outcome of a processor call: whether it returned `Ok`,
the payloads written to storage, and the buffers recursively processed. -/
structure ZipEffects where
  okResult : Bool
  writes : List (List Nat)
  childCalls : List (List Nat)
deriving DecidableEq, Repr

/-- Body of the member loop of `process_zip`: skip directories and
unreadable members, recurse into members classified as container or
archive, persist the rest when an output directory exists. -/
def memberFold (outputDir : Option (List Nat))
    (processChild : List Nat → Option (List Nat) → ZipEffects)
    (acc : ZipEffects) (m : ZipMember) : ZipEffects :=
  if endsWithSeq [47] m.name then acc
  else
    match m.contents with
    | none => acc
    | some bytes =>
      let ft := detect_file_type bytes (some m.name)
      if ft = FileType.AutelContainer ∨ ft = FileType.Zip then
        let eff := processChild bytes (some m.name)
        { okResult := acc.okResult && eff.okResult,
          writes := acc.writes ++ eff.writes,
          childCalls := acc.childCalls ++ bytes :: eff.childCalls }
      else
        match outputDir with
        | some _ => { acc with writes := acc.writes ++ [bytes] }
        | none => acc

/-- `process_zip(data, zip_name, output_dir, depth)` of src/processor.rs:
locate the end of the archive; on failure persist the raw bytes (when an
output directory and a name were supplied) and return `Ok`; on a decoder
failure return `Ok` with no effect; otherwise save the raw bytes and
walk the members. -/
def process_zip (openArchive : List Nat → Option (List ZipMember))
    (processChild : List Nat → Option (List Nat) → ZipEffects)
    (data : List Nat) (zipName : Option (List Nat))
    (outputDir : Option (List Nat)) : ZipEffects :=
  match slice_to_eocd data with
  | none =>
    { okResult := true,
      writes :=
        match outputDir, zipName with
        | some _, some _ => [data]
        | _, _ => [],
      childCalls := [] }
  | some zipSlice =>
    match openArchive zipSlice with
    | none => { okResult := true, writes := [], childCalls := [] }
    | some members =>
      let init : ZipEffects :=
        { okResult := true,
          writes :=
            match outputDir, zipName with
            | some _, some _ => [data]
            | _, _ => [],
          childCalls := [] }
      members.foldl (memberFold outputDir processChild) init

/-! ## Container framing builder

Framing of one container entry as described by the specification and by
the test builder `build_test_container` of src/parser.rs: quoted
top-level tag, quoted file-info tag, 4-byte big-endian name length,
4-byte header, name, quoted file-content tag, 4-byte big-endian content
length, 4-byte content metadata, content bytes. -/

/-- The quoted top-level tag bytes. -/
def qft : List Nat := [34] ++ ftStr ++ [34]

/-- The quoted file-info tag bytes. -/
def qfi : List Nat := [34] ++ fiStr ++ [34]

/-- The quoted file-content tag bytes. -/
def qfc : List Nat := [34] ++ fcStr ++ [34]

/-- The four fields an entry is built from. -/
structure BuildSpec where
  name : List Nat
  hdr : List Nat
  meta : List Nat
  content : List Nat
deriving DecidableEq, Repr

/-- Container framing of one entry. -/
def buildEntry (e : BuildSpec) : List Nat :=
  qft ++ qfi ++ be32bytes e.name.length ++ e.hdr ++ e.name ++
    qfc ++ be32bytes e.content.length ++ e.meta ++ e.content

/-- Concatenated framings of a sequence of entries. -/
def concatBuild (es : List BuildSpec) : List Nat := (es.map buildEntry).flatten

/-- The name is valid UTF-8 and carries no surrounding quote characters
(so the parser's quote-trimming is the identity on it). -/
def nameOk (name : List Nat) : Bool :=
  match utf8Decode name with
  | some cs => trimQuotes cs == cs
  | none => false

/-- Side conditions under which an entry round-trips: 4-byte header and
metadata fields, lengths that fit the 4-byte length fields, a valid
UTF-8 name without surrounding quotes, and no quote-then-`<` byte pair
anywhere in the length/header/name region (such a pair would be taken
for the opener of a structural tag by the info-block delimiting scan). -/
def goodSpec (e : BuildSpec) : Prop :=
  e.hdr.length = 4 ∧ e.meta.length = 4 ∧
    e.name.length < 4294967296 ∧ e.content.length < 4294967296 ∧
    nameOk e.name = true ∧
    pairFree 34 60 (be32bytes e.name.length ++ e.hdr ++ e.name) = true

/-- The externally meaningful fields of a parsed record. -/
def recordOf (e : FileEntry) :
    Option (List Nat) × Option (List Nat) × Option (List Nat) × List Nat :=
  (e.filename, e.header_data, e.content_meta, e.content)

/-- The record the round-trip is expected to produce for an entry. -/
def expectedRec (e : BuildSpec) :
    Option (List Nat) × Option (List Nat) × Option (List Nat) × List Nat :=
  (utf8Decode e.name, some e.hdr, some e.meta, e.content)

/-! ## Checked variants

Each indexing or slicing operation that can panic in Rust is mapped to
an `Option`-valued access (`l[i]?`, `sliceC`); an outer `none` models a
panic.  The theorems for the panic-freedom claim show that each checked
variant returns `some` of its total counterpart on every input. -/

/-- Rust slicing `l[a..c]`, which panics unless `a ≤ c ≤ l.length`. -/
def sliceC (l : List Nat) (a c : Nat) : Option (List Nat) :=
  if a ≤ c ∧ c ≤ l.length then some (sliceL l a c) else none

/-- Checked inner loop of `find_tag` (`buffer[j]` is the panic site). -/
def findTagEndGoC (b : List Nat) (j : Nat) : Nat → Option (Option Nat)
  | 0 => some none
  | fuel + 1 =>
    match b[j]? with
    | none => none
    | some bj =>
      if bj = 62 ∧ b[j + 1]? = some 34 then some (some j)
      else findTagEndGoC b (j + 1) fuel

/-- Checked `findTagEnd`. -/
def findTagEndC (b : List Nat) (i : Nat) : Option (Option Nat) :=
  findTagEndGoC b (i + 2) (b.length - 1 - (i + 2))

/-- Checked outer loop of `find_tag` (`buffer[i]`, `buffer[i+1]` and the
tag slice `buffer[i..=j+1]` are the panic sites). -/
def findTagGoC (b : List Nat) (i : Nat) : Nat → Option (Option (Nat × List Nat))
  | 0 => some none
  | fuel + 1 =>
    if i < b.length - 3 then
      match b[i]?, b[i + 1]? with
      | some bi, some bi1 =>
        if bi = 34 ∧ bi1 = 60 then
          match findTagEndC b i with
          | none => none
          | some none => findTagGoC b (i + 2) fuel
          | some (some j) => (sliceC b i (j + 2)).map (fun t => some (i, t))
        else findTagGoC b (i + 1) fuel
      | _, _ => none
    else some none

/-- Checked `find_tag`. -/
def find_tagC (b : List Nat) (start : Nat) : Option (Option (Nat × List Nat)) :=
  findTagGoC b start (b.length + 1)

/-- Checked `extract_filename` (the length-field reads and the name
slice are the panic sites). -/
def extract_filenameC (info : List Nat) :
    Option (Option (List Nat) × Option (List Nat)) :=
  if info.length < 8 then some (none, none)
  else
    match info[0]?, info[1]?, info[2]?, info[3]? with
    | some a, some b, some c, some d =>
      let name_len := be32 a b c d
      let header_bytes := get4 info 4
      if info.length < 8 + name_len then some (none, header_bytes)
      else
        match sliceC info 8 (8 + name_len) with
        | none => none
        | some nameBytes => some ((utf8Decode nameBytes).map trimQuotes, header_bytes)
    | _, _, _, _ => none

/-- Checked single iteration of the parse loop. -/
def parseStepC (b : List Nat) (pos : Nat) : Option (Option (Option FileEntry × Nat)) :=
  match find_tagC b pos with
  | none => none
  | some none => some none
  | some (some (start, tagBytes)) =>
    match utf8Decode tagBytes with
    | none => some (some (none, start + 1))
    | some tagCs =>
      if trimQuotes tagCs ≠ ftStr then some (some (none, start + tagBytes.length))
      else
        match find_tagC b (start + tagBytes.length) with
        | none => none
        | some none => some none
        | some (some (infoStart, infoTagBytes)) =>
          if trimQuotes ((utf8Decode infoTagBytes).getD []) ≠ fiStr then
            some (some (none, infoStart + infoTagBytes.length))
          else
            let ids := infoStart + infoTagBytes.length
            match find_tagC b ids with
            | none => none
            | some r1 =>
              let nti := match r1 with | some (i, _) => i | none => b.length
              match sliceC b ids nti with
              | none => none
              | some infoData =>
                match extract_filenameC infoData with
                | none => none
                | some fh =>
                  match find_tagC b nti with
                  | none => none
                  | some none => some none
                  | some (some (contentStart, contentTagBytes)) =>
                    if trimQuotes ((utf8Decode contentTagBytes).getD []) ≠ fcStr then
                      some (some (none, contentStart + contentTagBytes.length))
                    else
                      let cds := contentStart + contentTagBytes.length
                      if cds + 8 ≤ b.length then
                        match b[cds]?, b[cds + 1]?, b[cds + 2]?, b[cds + 3]? with
                        | some x0, some x1, some x2, some x3 =>
                          let declaredLen := be32 x0 x1 x2 x3
                          let ace := min (cds + 8 + declaredLen) b.length
                          match sliceC b (cds + 8) ace, sliceC b cds ace with
                          | some ct, some rawct =>
                            some (some (some ⟨fh.1, fh.2, declaredLen, get4 b (cds + 4),
                              ct, rawct, cds⟩, ace))
                          | _, _ => none
                        | _, _, _, _ => none
                      else
                        match sliceC b cds (min cds b.length) with
                        | none => none
                        | some rawct =>
                          some (some (some ⟨fh.1, fh.2, 0, none, [], rawct, cds⟩, cds))

/-- Checked iterated parse loop. -/
def parseGoC (b : List Nat) (pos : Nat) : Nat → Option (List FileEntry)
  | 0 => some []
  | fuel + 1 =>
    if pos < b.length then
      match parseStepC b pos with
      | none => none
      | some none => some []
      | some (some (oe, p2)) => (parseGoC b p2 fuel).map (fun es => oe.toList ++ es)
    else some []

/-- Checked `parse_file_entries`. -/
def parse_file_entriesC (b : List Nat) : Option (List FileEntry) :=
  parseGoC b 0 (b.length + 1)

/-- Checked guard of the `slice_to_eocd` loop (the 4-byte signature
slice is guarded by the preceding length test of the same `&&` chain). -/
def eocdCheckC (d : List Nat) (i : Nat) : Option Bool :=
  if i + 4 ≤ d.length then
    (sliceC d i (i + 4)).map (fun s => s == eocdSig && decide (i + 22 ≤ d.length))
  else some false

/-- Checked result slice of `slice_to_eocd` (the comment-length bytes
and the result slice are the panic sites). -/
def eocdTakeC (d : List Nat) (i : Nat) : Option (List Nat) :=
  match d[i + 20]?, d[i + 21]? with
  | some a, some b =>
    let commentLen := le16 a b
    if i + 22 + commentLen ≤ d.length then sliceC d 0 (i + 22 + commentLen) else some d
  | _, _ => none

/-- Checked backward scan of `slice_to_eocd`. -/
def eocdFromC (d : List Nat) : Nat → Option (Option (List Nat))
  | 0 =>
    match eocdCheckC d 0 with
    | none => none
    | some true => (eocdTakeC d 0).map some
    | some false => some none
  | i + 1 =>
    match eocdCheckC d (i + 1) with
    | none => none
    | some true => (eocdTakeC d (i + 1)).map some
    | some false => eocdFromC d i

/-- Checked `slice_to_eocd`. -/
def slice_to_eocdC (d : List Nat) : Option (Option (List Nat)) :=
  eocdFromC d (d.length - 22)

/-- Checked second container scan of `detect_file_type`. -/
def autelLoop2GoC (d : List Nat) (i : Nat) : Nat → Option (Option Nat)
  | 0 => some none
  | fuel + 1 =>
    match sliceC d i (i + 2) with
    | none => none
    | some s2 =>
      if s2 = [34, 60] then
        match sliceC d i (i + min 16 (d.length - i)) with
        | none => none
        | some s16 =>
          if (match utf8Decode s16 with
              | some s => containsSeq ftStr s
              | none => false) then some (some i)
          else autelLoop2GoC d (i + 1) fuel
      else autelLoop2GoC d (i + 1) fuel

/-- Checked container-marker scan (`windows` cannot panic). -/
def containerHitC (d : List Nat) : Option Bool :=
  if 16 ≤ d.length then
    match windowsPos14 d with
    | some p =>
      if p < 100 then some true
      else (autelLoop2GoC d 0 (min 100 (d.length - 16))).map Option.isSome
    | none => (autelLoop2GoC d 0 (min 100 (d.length - 16))).map Option.isSome
  else some false

/-- Checked UTF-8 / JSON sniff (`data[trimmed]` is the panic site). -/
def utf8FallbackC (d : List Nat) : Option FileType :=
  match utf8Decode d with
  | some _ =>
    let trimmed := (d.findIdx? (fun b => !isAsciiWs b)).getD 0
    if trimmed < d.length then
      (d[trimmed]?).map (fun x => if x = 123 ∨ x = 91 then FileType.Json else FileType.Text)
    else some FileType.Text
  | none => some FileType.Unknown

/-- Checked filename-extension fallback of `detect_file_type`. -/
def detectNameC (d : List Nat) (filename : Option (List Nat)) : Option FileType :=
  match filename with
  | some name =>
    if endsWithSeq [46, 106, 115, 111, 110] name then some FileType.Json
    else if endsWithSeq [46, 122, 105, 112] name then some FileType.Zip
    else utf8FallbackC d
  | none => utf8FallbackC d

/-- Checked trailing magic checks of `detect_file_type` (ESC and GPS
signatures and the fallbacks). -/
def detectTailC (d : List Nat) (filename : Option (List Nat)) (m4 : List Nat) :
    Option FileType :=
  if m4 = [0, 0, 0, 0] ∧ 5 ≤ d.length then
    match d[4]? with
    | none => none
    | some b4 =>
      if 20 ≤ b4 ∧ b4 ≤ 23 then some FileType.UpgEsc
      else
        if 8 ≤ d.length then
          match sliceC d 0 8 with
          | none => none
          | some m8 =>
            if m8 = [64, 84, 68, 49, 48, 53, 48, 120] then some FileType.GpsBin
            else detectNameC d filename
        else detectNameC d filename
  else
    if 8 ≤ d.length then
      match sliceC d 0 8 with
      | none => none
      | some m8 =>
        if m8 = [64, 84, 68, 49, 48, 53, 48, 120] then some FileType.GpsBin
        else detectNameC d filename
    else detectNameC d filename

/-- Checked middle magic checks of `detect_file_type` (gimbal, FCS and
BMS signatures). -/
def detectMidC (d : List Nat) (filename : Option (List Nat)) (m4 : List Nat) :
    Option FileType :=
  if m4 = [52, 18, 239, 190] then
    if 5 ≤ d.length then
      match d[4]? with
      | none => none
      | some b4 =>
        if b4 = 14 then some FileType.UpgRcMcu else some FileType.UpgGimbal
    else some FileType.UpgGimbal
  else if m4 = [85, 80, 70, 83] then some FileType.UpgFcs
  else if m4 = [2, 170, 85, 170] then some FileType.UpgBms
  else detectTailC d filename m4

/-- Checked `detect_file_type`. -/
def detect_file_typeC (d : List Nat) (filename : Option (List Nat)) : Option FileType :=
  if d.length < 4 then some FileType.Unknown
  else
    match containerHitC d with
    | none => none
    | some true => some FileType.AutelContainer
    | some false =>
      match sliceC d 0 4 with
      | none => none
      | some m4 =>
        if m4 = [80, 75, 3, 4] then some FileType.Zip
        else
          if 2 ≤ d.length then
            match sliceC d 0 2 with
            | none => none
            | some m2 =>
              if m2 = [31, 139] then some FileType.Gzip else detectMidC d filename m4
          else detectMidC d filename m4

/-- The tags decided by content evidence alone (container marker or a
fixed magic signature), as opposed to filename hints or the UTF-8 sniff. -/
def contentTag : FileType → Bool
  | FileType.AutelContainer => true
  | FileType.Zip => true
  | FileType.Gzip => true
  | FileType.UpgGimbal => true
  | FileType.UpgFcs => true
  | FileType.UpgBms => true
  | FileType.UpgEsc => true
  | FileType.UpgRcMcu => true
  | FileType.GpsBin => true
  | _ => false

instance goodSpecDecidable (e : BuildSpec) : Decidable (goodSpec e) := by
  unfold goodSpec
  infer_instance

/-- Concrete entry whose content embeds the quoted tag-like byte
sequence of a fake tag (compare the tricky-content regression test of
src/parser.rs): name t.bin, content the bytes of ab"<fake>"cd. -/
def trickySpec : BuildSpec :=
  ⟨[116, 46, 98, 105, 110], [253, 206, 105, 72], [51, 168, 59, 31],
   [97, 98, 34, 60, 102, 97, 107, 101, 62, 34, 99, 100]⟩

/-- The record that parsing the framing of trickySpec produces: name
t.bin, the four header bytes, declared length 12, the four metadata
bytes, the twelve content bytes, the raw content block starting at the
length field, and content data offset 56. -/
def trickyEntry : FileEntry :=
  ⟨some [116, 46, 98, 105, 110], some [253, 206, 105, 72], 12, some [51, 168, 59, 31],
   [97, 98, 34, 60, 102, 97, 107, 101, 62, 34, 99, 100],
   [0, 0, 0, 12, 51, 168, 59, 31, 97, 98, 34, 60, 102, 97, 107, 101, 62, 34, 99, 100], 56⟩

/-- Concrete entry a.txt with content hi. -/
def wSpec1 : BuildSpec := ⟨[97, 46, 116, 120, 116], [1, 2, 3, 4], [5, 6, 7, 8], [104, 105]⟩

/-- Concrete entry b.json with an empty JSON object as content. -/
def wSpec2 : BuildSpec :=
  ⟨[98, 46, 106, 115, 111, 110], [9, 9, 9, 9], [8, 8, 8, 8], [123, 125]⟩

/-- Concrete entry c.bin with two binary content bytes. -/
def wSpec3 : BuildSpec := ⟨[99, 46, 98, 105, 110], [0, 1, 2, 3], [4, 5, 6, 7], [222, 173]⟩

/-! ## Basic lemmas about the helpers -/

theorem sliceL_length (l : List Nat) (a c : Nat) :
    (sliceL l a c).length = min (c - a) (l.length - a) := by
  simp [sliceL]

theorem nthD_drop (b : List Nat) (p k : Nat) : nthD (b.drop p) k = nthD b (p + k) := by
  simp [nthD, List.getElem?_drop]

theorem nthD_append_left {l1 : List Nat} (l2 : List Nat) {k : Nat} (h : k < l1.length) :
    nthD (l1 ++ l2) k = nthD l1 k := by
  simp [nthD, List.getElem?_append_left h]

theorem nthD_append_right {l1 : List Nat} (l2 : List Nat) {k : Nat} (h : l1.length ≤ k) :
    nthD (l1 ++ l2) k = nthD l2 (k - l1.length) := by
  simp [nthD, List.getElem?_append_right h]

theorem nthD_of_drop {b l : List Nat} {p : Nat} (h : b.drop p = l) (k : Nat) :
    nthD b (p + k) = nthD l k := by
  rw [← nthD_drop, h]

theorem sliceL_of_drop {b l : List Nat} {p : Nat} (h : b.drop p = l) (a c : Nat) :
    sliceL b (p + a) (p + c) = sliceL l a c := by
  unfold sliceL
  have h2 : b.drop (p + a) = l.drop a := by rw [← h, List.drop_drop]
  rw [h2, show p + c - (p + a) = c - a by omega]

theorem take_len_append (l1 l2 : List Nat) : (l1 ++ l2).take l1.length = l1 := by
  rw [List.take_append_of_le_length (Nat.le_refl _), List.take_length]

theorem drop_len_append (l1 l2 : List Nat) : (l1 ++ l2).drop l1.length = l2 := by
  rw [List.drop_append_of_le_length (Nat.le_refl _), List.drop_length]
  simp

theorem sliceL_zero (l : List Nat) (c : Nat) : sliceL l 0 c = l.take c := by
  simp [sliceL]

theorem searchFrom_some (p : Nat → Bool) :
    ∀ (f i q : Nat), searchFrom p i f = some q → i ≤ q ∧ q < i + f ∧ p q = true
  | 0, i, q => by intro h; simp [searchFrom] at h
  | f + 1, i, q => by
    intro h
    unfold searchFrom at h
    by_cases hp : p i
    · rw [if_pos hp] at h
      cases h
      exact ⟨Nat.le_refl _, by omega, hp⟩
    · rw [if_neg hp] at h
      have h2 := searchFrom_some p f (i + 1) q h
      exact ⟨by omega, by omega, h2.2.2⟩

theorem searchFrom_first (p : Nat → Bool) :
    ∀ (f i m : Nat), i ≤ m → m < i + f → p m = true →
      (∀ j, i ≤ j → j < m → p j = false) → searchFrom p i f = some m
  | 0, i, m => by intro h1 h2 _ _; omega
  | f + 1, i, m => by
    intro h1 h2 hm hsk
    unfold searchFrom
    by_cases hi : i = m
    · subst hi; rw [if_pos hm]
    · have hpi : p i = false := hsk i (Nat.le_refl _) (by omega)
      rw [if_neg (by simp [hpi])]
      exact searchFrom_first p f (i + 1) m (by omega) (by omega) hm
        (fun j hj1 hj2 => hsk j (by omega) hj2)

theorem searchFrom_exists_le (p : Nat → Bool) :
    ∀ (f i m : Nat), i ≤ m → m < i + f → p m = true →
      ∃ q, searchFrom p i f = some q ∧ i ≤ q ∧ q ≤ m ∧ p q = true
  | 0, i, m => by intro h1 h2 _; omega
  | f + 1, i, m => by
    intro h1 h2 hm
    unfold searchFrom
    by_cases hp : p i
    · exact ⟨i, by rw [if_pos hp], Nat.le_refl _, h1, hp⟩
    · have hne : i ≠ m := fun he => hp (he ▸ hm)
      obtain ⟨q, hq, hq1, hq2, hq3⟩ :=
        searchFrom_exists_le p f (i + 1) m (by omega) (by omega) hm
      exact ⟨q, by rw [if_neg hp]; exact hq, by omega, hq2, hq3⟩

theorem pairFree_spec {x y : Nat} :
    ∀ (l : List Nat), pairFree x y l = true →
      ∀ k, k + 1 < l.length → ¬(nthD l k = x ∧ nthD l (k + 1) = y)
  | [] => by intro _ k hk; simp at hk
  | [_] => by intro _ k hk; simp at hk
  | a :: b :: rest => by
    intro hpf k hk
    have hpf2 : (!(a == x && b == y)) = true ∧ pairFree x y (b :: rest) = true := by
      simpa [pairFree] using hpf
    match k with
    | 0 =>
      intro hc
      have ha : a = x := by simpa [nthD] using hc.1
      have hb : b = y := by simpa [nthD] using hc.2
      subst ha; subst hb
      simp at hpf2
    | k + 1 =>
      have ih := pairFree_spec (b :: rest) hpf2.2 k (by simp at hk ⊢; omega)
      intro hc
      apply ih
      refine ⟨?_, ?_⟩
      · simpa [nthD] using hc.1
      · simpa [nthD] using hc.2

theorem be32_digits {n : Nat} (h : n < 4294967296) :
    be32 (n / 16777216 % 256) (n / 65536 % 256) (n / 256 % 256) (n % 256) = n := by
  unfold be32
  omega

theorem be32bytes_length (n : Nat) : (be32bytes n).length = 4 := rfl

theorem nameOk_map_trim {name : List Nat} (h : nameOk name = true) :
    (utf8Decode name).map trimQuotes = utf8Decode name := by
  unfold nameOk at h
  cases hd : utf8Decode name with
  | none => rw [hd] at h; simp at h
  | some cs =>
    rw [hd] at h
    have h2 : trimQuotes cs = cs := by simpa using h
    simp [h2]

/-! ## Lemmas about find_tag -/

theorem findTagEnd_some_spec {b : List Nat} {i j : Nat} (h : findTagEnd b i = some j) :
    i + 2 ≤ j ∧ j + 2 ≤ b.length ∧ tagCloseAt b j = true := by
  obtain ⟨h1, h2, h3⟩ := searchFrom_some _ _ _ _ h
  exact ⟨h1, by omega, h3⟩

theorem findTagEnd_found {b : List Nat} {i m : Nat} (h1 : i + 2 ≤ m) (h2 : m + 1 < b.length)
    (hm : tagCloseAt b m = true)
    (hsk : ∀ j, i + 2 ≤ j → j < m → tagCloseAt b j = false) :
    findTagEnd b i = some m :=
  searchFrom_first _ _ (i + 2) m h1 (by omega) hm hsk

theorem findTagGo_succ (b : List Nat) (i f : Nat) :
    findTagGo b i (f + 1) =
      if i < b.length - 3 then
        if nthD b i = 34 ∧ nthD b (i + 1) = 60 then
          match findTagEnd b i with
          | some j => some (i, sliceL b i (j + 2))
          | none => findTagGo b (i + 2) f
        else findTagGo b (i + 1) f
      else none := rfl

theorem findTagGo_irrel {b : List Nat} :
    ∀ (f g i : Nat), b.length - 3 - i < f → b.length - 3 - i < g →
      findTagGo b i f = findTagGo b i g
  | 0, g, i => by intro h1 h2; omega
  | f + 1, 0, i => by intro h1 h2; omega
  | f + 1, g + 1, i => by
    intro h1 h2
    rw [findTagGo_succ, findTagGo_succ]
    by_cases hg : i < b.length - 3
    · rw [if_pos hg, if_pos hg]
      by_cases hop : nthD b i = 34 ∧ nthD b (i + 1) = 60
      · rw [if_pos hop, if_pos hop]
        cases hfe : findTagEnd b i with
        | some j => rfl
        | none => exact findTagGo_irrel f g (i + 2) (by omega) (by omega)
      · rw [if_neg hop, if_neg hop]
        exact findTagGo_irrel f g (i + 1) (by omega) (by omega)
    · rw [if_neg hg, if_neg hg]

theorem find_tag_stop {b : List Nat} {s : Nat} (h : ¬ s < b.length - 3) :
    find_tag b s = none := by
  unfold find_tag
  rw [findTagGo_succ, if_neg h]

theorem find_tag_skip1 {b : List Nat} {s : Nat} (hg : s < b.length - 3)
    (hop : ¬(nthD b s = 34 ∧ nthD b (s + 1) = 60)) :
    find_tag b s = find_tag b (s + 1) := by
  unfold find_tag
  conv_lhs => rw [findTagGo_succ, if_pos hg, if_neg hop]
  exact findTagGo_irrel _ _ _ (by omega) (by omega)

theorem find_tag_skip2 {b : List Nat} {s : Nat} (hg : s < b.length - 3)
    (hop : nthD b s = 34 ∧ nthD b (s + 1) = 60) (hfe : findTagEnd b s = none) :
    find_tag b s = find_tag b (s + 2) := by
  unfold find_tag
  conv_lhs => rw [findTagGo_succ, if_pos hg, if_pos hop, hfe]
  exact findTagGo_irrel _ _ _ (by omega) (by omega)

theorem find_tag_found {b : List Nat} {s j : Nat} (hg : s < b.length - 3)
    (hop : nthD b s = 34 ∧ nthD b (s + 1) = 60) (hfe : findTagEnd b s = some j) :
    find_tag b s = some (s, sliceL b s (j + 2)) := by
  unfold find_tag
  rw [findTagGo_succ, if_pos hg, if_pos hop, hfe]

theorem find_tag_congr {b : List Nat} :
    ∀ (n s : Nat), (∀ i, s ≤ i → i < s + n → ¬(nthD b i = 34 ∧ nthD b (i + 1) = 60)) →
      find_tag b s = find_tag b (s + n)
  | 0, s => by intro _; rfl
  | n + 1, s => by
    intro hsk
    by_cases hg : s < b.length - 3
    · rw [find_tag_skip1 hg (hsk s (Nat.le_refl _) (by omega))]
      rw [find_tag_congr n (s + 1) (fun i h1 h2 => hsk i (by omega) (by omega))]
      rw [show s + 1 + n = s + (n + 1) by omega]
    · rw [find_tag_stop hg]
      exact (find_tag_stop (by omega)).symm

theorem findTagGo_some_spec {b : List Nat} :
    ∀ (f s i : Nat) (t : List Nat), findTagGo b s f = some (i, t) →
      s ≤ i ∧ i + 3 < b.length ∧ ∃ j, findTagEnd b i = some j ∧ t = sliceL b i (j + 2)
  | 0, s, i, t => by intro h; simp [findTagGo] at h
  | f + 1, s, i, t => by
    intro h
    rw [findTagGo_succ] at h
    by_cases hg : s < b.length - 3
    · rw [if_pos hg] at h
      by_cases hop : nthD b s = 34 ∧ nthD b (s + 1) = 60
      · rw [if_pos hop] at h
        cases hfe : findTagEnd b s with
        | some j =>
          rw [hfe] at h
          cases h
          exact ⟨Nat.le_refl _, by omega, j, hfe, rfl⟩
        | none =>
          rw [hfe] at h
          have h2 := findTagGo_some_spec f (s + 2) i t h
          exact ⟨by omega, h2.2.1, h2.2.2⟩
      · rw [if_neg hop] at h
        have h2 := findTagGo_some_spec f (s + 1) i t h
        exact ⟨by omega, h2.2.1, h2.2.2⟩
    · rw [if_neg hg] at h
      simp at h

theorem find_tag_some_spec {b : List Nat} {s i : Nat} {t : List Nat}
    (h : find_tag b s = some (i, t)) :
    s ≤ i ∧ i + 3 < b.length ∧ 4 ≤ t.length ∧ i + t.length ≤ b.length := by
  obtain ⟨h1, h2, j, hj, ht⟩ := findTagGo_some_spec _ s i t h
  obtain ⟨hj1, hj2, _⟩ := findTagEnd_some_spec hj
  have hlen : t.length = j + 2 - i := by
    rw [ht, sliceL_length]
    omega
  exact ⟨h1, h2, by omega, by omega⟩

/-! ## Lemmas about the parse loop -/

theorem parseStep_progress {b : List Nat} {pos p2 : Nat} {oe : Option FileEntry}
    (h : parseStep b pos = some (oe, p2)) : pos < p2 := by
  unfold parseStep at h
  split at h
  · exact absurd h (by simp)
  next start tagBytes heq1 =>
    have hs1 := find_tag_some_spec heq1
    split at h
    · cases h; omega
    next tagCs heq2 =>
      split at h
      · cases h; omega
      next h3 =>
        split at h
        · exact absurd h (by simp)
        next infoStart infoTag heq4 =>
          have hs2 := find_tag_some_spec heq4
          split at h
          · cases h; omega
          next h5 =>
            simp only [] at h
            cases h6 : find_tag b (infoStart + infoTag.length) with
            | none =>
              simp only [h6] at h
              split at h
              · exact absurd h (by simp)
              next cStart cTag heq6 =>
                have hs3 := find_tag_some_spec heq6
                split at h
                · cases h; omega
                next h7 =>
                  split at h
                  · cases h
                    omega
                  · cases h
                    omega
            | some r3 =>
              obtain ⟨nti0, t3⟩ := r3
              simp only [h6] at h
              have hs25 := find_tag_some_spec h6
              split at h
              · exact absurd h (by simp)
              next cStart cTag heq6 =>
                have hs3 := find_tag_some_spec heq6
                split at h
                · cases h; omega
                next h7 =>
                  split at h
                  · cases h
                    omega
                  · cases h
                    omega

theorem parseGo_succ (b : List Nat) (pos f : Nat) :
    parseGo b pos (f + 1) =
      if pos < b.length then
        match parseStep b pos with
        | none => []
        | some (oe, p2) => oe.toList ++ parseGo b p2 f
      else [] := rfl

theorem parseGo_irrel {b : List Nat} :
    ∀ (f g pos : Nat), b.length - pos < f → b.length - pos < g →
      parseGo b pos f = parseGo b pos g
  | 0, g, pos => by intro h1 h2; omega
  | f + 1, 0, pos => by intro h1 h2; omega
  | f + 1, g + 1, pos => by
    intro h1 h2
    rw [parseGo_succ, parseGo_succ]
    by_cases hp : pos < b.length
    · rw [if_pos hp, if_pos hp]
      cases hs : parseStep b pos with
      | none => rfl
      | some r =>
        obtain ⟨oe, p2⟩ := r
        have hprog := parseStep_progress hs
        exact congrArg (oe.toList ++ ·) (parseGo_irrel f g p2 (by omega) (by omega))
    · rw [if_neg hp, if_neg hp]

theorem parseAll_unfold {b : List Nat} {pos : Nat} (hp : pos < b.length) :
    parseAll b pos =
      match parseStep b pos with
      | none => []
      | some (oe, p2) => oe.toList ++ parseAll b p2 := by
  unfold parseAll
  rw [parseGo_succ, if_pos hp]
  cases hs : parseStep b pos with
  | none => rfl
  | some r =>
    obtain ⟨oe, p2⟩ := r
    have hprog := parseStep_progress hs
    exact congrArg (oe.toList ++ ·) (parseGo_irrel _ _ p2 (by omega) (by omega))

theorem parseAll_stop {b : List Nat} {pos : Nat} (hp : ¬ pos < b.length) :
    parseAll b pos = [] := by
  unfold parseAll
  rw [parseGo_succ, if_neg hp]

theorem parseGo_mem {b : List Nat} :
    ∀ (f pos : Nat) (e : FileEntry), e ∈ parseGo b pos f →
      ∃ q p2, parseStep b q = some (some e, p2)
  | 0, pos, e => by intro h; simp [parseGo] at h
  | f + 1, pos, e => by
    intro h
    rw [parseGo_succ] at h
    by_cases hp : pos < b.length
    · rw [if_pos hp] at h
      cases hs : parseStep b pos with
      | none => rw [hs] at h; simp at h
      | some r =>
        obtain ⟨oe, p2⟩ := r
        rw [hs] at h
        rw [List.mem_append] at h
        cases h with
        | inl h2 =>
          have hoe : oe = some e := by
            cases oe with
            | none => simp at h2
            | some x =>
              have hx : e = x := by simpa using h2
              rw [hx]
          exact ⟨pos, p2, by rw [← hoe]; exact hs⟩
        | inr h2 => exact parseGo_mem f p2 e h2
    · rw [if_neg hp] at h
      simp at h

theorem parseStep_emit_inv {b : List Nat} {pos p2 : Nat} {e : FileEntry}
    (h : parseStep b pos = some (some e, p2)) :
    e.content.length = min e.content_length (b.length - (e.content_data_offset + 8)) := by
  unfold parseStep at h
  split at h
  · exact absurd h (by simp)
  next start tagBytes heq1 =>
    split at h
    · exact absurd h (by simp)
    next tagCs heq2 =>
      split at h
      · exact absurd h (by simp)
      next h3 =>
        split at h
        · exact absurd h (by simp)
        next infoStart infoTag heq4 =>
          split at h
          · exact absurd h (by simp)
          next h5 =>
            simp only [] at h
            cases h6 : find_tag b (infoStart + infoTag.length) with
            | none =>
              simp only [h6] at h
              split at h
              · exact absurd h (by simp)
              next cStart cTag heq6 =>
                split at h
                · exact absurd h (by simp)
                next h7 =>
                  split at h
                  next h8 =>
                    cases h
                    simp only [sliceL_length]
                    omega
                  next h8 =>
                    cases h
                    simp
            | some r3 =>
              obtain ⟨nti0, t3⟩ := r3
              simp only [h6] at h
              split at h
              · exact absurd h (by simp)
              next cStart cTag heq6 =>
                split at h
                · exact absurd h (by simp)
                next h7 =>
                  split at h
                  next h8 =>
                    cases h
                    simp only [sliceL_length]
                    omega
                  next h8 =>
                    cases h
                    simp

theorem parse_entries_mem {b : List Nat} {e : FileEntry} (h : e ∈ parse_file_entries b) :
    ∃ q p2, parseStep b q = some (some e, p2) :=
  parseGo_mem _ 0 e h

/-! ## Evaluating the parser on framed buffers -/

theorem getElem?_of_nthD {b : List Nat} {i v : Nat} (h1 : i < b.length)
    (h2 : nthD b i = v) : b[i]? = some v := by
  cases hx : b[i]? with
  | none =>
    rw [List.getElem?_eq_none_iff] at hx
    omega
  | some w =>
    rw [nthD, hx] at h2
    simp at h2
    rw [h2]

theorem nthD_lit_of_drop {b lit t : List Nat} {p j : Nat} (h : b.drop p = lit ++ t)
    (h1 : p ≤ j) (h2 : j < p + lit.length) : nthD b j = nthD lit (j - p) := by
  have h3 := nthD_of_drop h (j - p)
  rw [show p + (j - p) = j from by omega] at h3
  rw [h3, nthD_append_left _ (by omega)]

theorem drop_shift {b l1 l2 : List Nat} {p : Nat} (h : b.drop p = l1 ++ l2) :
    b.drop (p + l1.length) = l2 := by
  rw [← List.drop_drop, h, drop_len_append]

theorem sliceL_lit_of_drop {b lit t : List Nat} {p : Nat} (h : b.drop p = lit ++ t) :
    sliceL b p (p + lit.length) = lit := by
  have h2 := sliceL_of_drop h 0 lit.length
  rw [Nat.add_zero] at h2
  rw [h2, sliceL_zero, take_len_append]

theorem find_tag_at_lit {b tag t : List Nat} {p : Nat} (m : Nat)
    (hdrop : b.drop p = tag ++ t)
    (htag : tag.length = m + 2) (hm2 : 2 ≤ m)
    (h0 : nthD tag 0 = 34) (h1 : nthD tag 1 = 60)
    (hcl : nthD tag m = 62) (hcq : nthD tag (m + 1) = 34)
    (hnc : ∀ k, k < m → 2 ≤ k → nthD tag k ≠ 62)
    (hroom : p + tag.length + 8 ≤ b.length) :
    find_tag b p = some (p, tag) := by
  have hg : p < b.length - 3 := by omega
  have hop : nthD b p = 34 ∧ nthD b (p + 1) = 60 := by
    constructor
    · have := nthD_lit_of_drop hdrop (Nat.le_refl p) (by omega)
      simpa [h0] using this
    · have := nthD_lit_of_drop hdrop (show p ≤ p + 1 by omega) (by omega)
      simpa [h1] using this
  have hclose : tagCloseAt b (p + m) = true := by
    have e1 : nthD b (p + m) = 62 := by
      have := nthD_lit_of_drop hdrop (show p ≤ p + m by omega) (by omega)
      simpa [hcl] using this
    have e2 : nthD b (p + m + 1) = 34 := by
      have := nthD_lit_of_drop hdrop (show p ≤ p + m + 1 by omega) (by omega)
      rw [show p + m + 1 - p = m + 1 from by omega] at this
      simpa [hcq] using this
    have e3 : b[p + m + 1]? = some 34 := getElem?_of_nthD (by omega) e2
    simp [tagCloseAt, e1, e3]
  have hfe : findTagEnd b p = some (p + m) := by
    apply findTagEnd_found (by omega) (by omega) hclose
    intro j hj1 hj2
    have e1 : nthD b j = nthD tag (j - p) := nthD_lit_of_drop hdrop (by omega) (by omega)
    have e2 : nthD tag (j - p) ≠ 62 := hnc (j - p) (by omega) (by omega)
    simp [tagCloseAt, e1, e2]
  have hres := find_tag_found hg hop hfe
  rw [show p + m + 2 = p + tag.length from by omega] at hres
  rw [hres, sliceL_lit_of_drop hdrop]

theorem be32_read {b X : List Nat} {p m : Nat} (h : b.drop p = be32bytes m ++ X)
    (hm : m < 4294967296) :
    be32 (nthD b p) (nthD b (p + 1)) (nthD b (p + 2)) (nthD b (p + 3)) = m := by
  have e0 := nthD_lit_of_drop h (Nat.le_refl p) (by simp [be32bytes])
  have e1 := nthD_lit_of_drop h (show p ≤ p + 1 by omega) (by simp [be32bytes])
  have e2 := nthD_lit_of_drop h (show p ≤ p + 2 by omega) (by simp [be32bytes])
  have e3 := nthD_lit_of_drop h (show p ≤ p + 3 by omega) (by simp [be32bytes])
  rw [e0, e1, e2, e3]
  simp only [show p - p = 0 from by omega, show p + 1 - p = 1 from by omega,
    show p + 2 - p = 2 from by omega, show p + 3 - p = 3 from by omega]
  simp only [be32bytes, nthD, List.getElem?_cons_zero, List.getElem?_cons_succ,
    Option.getD_some]
  exact be32_digits hm

theorem extract_build (n hd : List Nat) (hhd : hd.length = 4) (hn : n.length < 4294967296) :
    extract_filename (be32bytes n.length ++ hd ++ n) =
      ((utf8Decode n).map trimQuotes, some hd) := by
  have hL : (be32bytes n.length ++ hd ++ n).length = 8 + n.length := by
    simp [be32bytes, hhd]
    omega
  have hassoc : be32bytes n.length ++ hd ++ n = be32bytes n.length ++ (hd ++ n) := by
    simp [List.append_assoc]
  have hdig : be32 (nthD (be32bytes n.length ++ hd ++ n) 0)
      (nthD (be32bytes n.length ++ hd ++ n) 1) (nthD (be32bytes n.length ++ hd ++ n) 2)
      (nthD (be32bytes n.length ++ hd ++ n) 3) = n.length := by
    have hdrop : (be32bytes n.length ++ hd ++ n).drop 0 = be32bytes n.length ++ (hd ++ n) := by
      simp only [List.drop_zero]
      exact hassoc
    have := be32_read hdrop hn
    simpa using this
  have hdrop8 : (be32bytes n.length ++ hd ++ n).drop 8 = n := by
    have h8 : (be32bytes n.length ++ hd).length = 8 := by simp [be32bytes, hhd]
    rw [← h8, drop_len_append]
  unfold extract_filename
  rw [if_neg (by omega), hdig, if_neg (by omega)]
  have hget : get4 (be32bytes n.length ++ hd ++ n) 4 = some hd := by
    unfold get4
    rw [if_pos (by omega)]
    have hdrop4 : (be32bytes n.length ++ hd ++ n).drop 4 = hd ++ n := by
      rw [hassoc, show (4 : Nat) = (be32bytes n.length).length from rfl, drop_len_append]
    have hs : sliceL (be32bytes n.length ++ hd ++ n) 4 (4 + 4) = hd := by
      have := sliceL_lit_of_drop hdrop4
      rw [hhd] at this
      exact this
    rw [hs]
  rw [hget]
  have hname : sliceL (be32bytes n.length ++ hd ++ n) 8 (8 + n.length) = n := by
    unfold sliceL
    rw [hdrop8, show 8 + n.length - 8 = n.length from by omega, List.take_length]
  rw [hname]

theorem buildEntry_length (e : BuildSpec) (h4 : e.hdr.length = 4) (hm4 : e.meta.length = 4) :
    (buildEntry e).length = 59 + e.name.length + e.content.length := by
  simp [buildEntry, qft, qfi, qfc, ftStr, fiStr, fcStr, be32bytes, h4, hm4]
  omega

/-- One well-formed framed entry at the scan position is parsed into one
record and the scan continues exactly at the end of the framing. -/
theorem parse_step_build {b rest : List Nat} {pos : Nat} (e : BuildSpec)
    (hdrop : b.drop pos = buildEntry e ++ rest) (hg : goodSpec e) :
    ∃ fe, parseAll b pos = fe :: parseAll b (pos + (buildEntry e).length) ∧
      recordOf fe = expectedRec e := by
  obtain ⟨hh4, hm4, hn32, hc32, hnok, hpf⟩ := hg
  have lq1 : qft.length = 16 := rfl
  have lq2 : qfi.length = 12 := rfl
  have lq3 : qfc.length = 15 := rfl
  have hbl := buildEntry_length e hh4 hm4
  have hlenb : (b.drop pos).length = (buildEntry e ++ rest).length := by rw [hdrop]
  rw [List.length_drop, List.length_append, hbl] at hlenb
  have hlen : b.length = pos + (59 + e.name.length + e.content.length) + rest.length := by
    omega
  have hA : b.drop pos = qft ++ (qfi ++ (be32bytes e.name.length ++ (e.hdr ++ (e.name ++
      (qfc ++ (be32bytes e.content.length ++ (e.meta ++ (e.content ++ rest)))))))) := by
    rw [hdrop]
    simp only [buildEntry, List.append_assoc]
  have hft1 : find_tag b pos = some (pos, qft) :=
    find_tag_at_lit 14 hA (by decide) (by decide) (by decide) (by decide) (by decide)
      (by decide) (by decide) (by rw [lq1]; omega)
  have hB := drop_shift hA
  have hft2 : find_tag b (pos + qft.length) = some (pos + qft.length, qfi) :=
    find_tag_at_lit 10 hB (by decide) (by decide) (by decide) (by decide) (by decide)
      (by decide) (by decide) (by rw [lq1, lq2]; omega)
  have hC : b.drop (pos + qft.length + qfi.length) =
      (be32bytes e.name.length ++ e.hdr ++ e.name) ++
        (qfc ++ (be32bytes e.content.length ++ (e.meta ++ (e.content ++ rest)))) := by
    have h2 := drop_shift hB
    rw [show pos + qft.length + qfi.length = pos + qft.length + qfi.length from rfl]
    rw [h2]
    simp only [List.append_assoc]
  have hinfolen : (be32bytes e.name.length ++ e.hdr ++ e.name).length = 8 + e.name.length := by
    simp [be32bytes, hh4]
    omega
  have hD : b.drop (pos + 36 + e.name.length) =
      qfc ++ (be32bytes e.content.length ++ (e.meta ++ (e.content ++ rest))) := by
    have h2 := drop_shift hC
    rw [hinfolen] at h2
    rw [show pos + 36 + e.name.length = pos + qft.length + qfi.length + (8 + e.name.length)
      from by rw [lq1, lq2]; omega]
    exact h2
  have hnoop : ∀ i, pos + qft.length + qfi.length ≤ i →
      i < pos + qft.length + qfi.length + (8 + e.name.length) →
      ¬(nthD b i = 34 ∧ nthD b (i + 1) = 60) := by
    intro i hi1 hi2 hpair
    obtain ⟨hp1, hp2⟩ := hpair
    rw [lq1, lq2] at hi1 hi2
    by_cases hlast : i + 1 < pos + 36 + e.name.length
    · have e1 : nthD b i =
          nthD (be32bytes e.name.length ++ e.hdr ++ e.name) (i - (pos + qft.length + qfi.length)) :=
        nthD_lit_of_drop hC (by rw [lq1, lq2]; omega) (by rw [hinfolen, lq1, lq2]; omega)
      have e2 : nthD b (i + 1) =
          nthD (be32bytes e.name.length ++ e.hdr ++ e.name)
            (i + 1 - (pos + qft.length + qfi.length)) :=
        nthD_lit_of_drop hC (by rw [lq1, lq2]; omega) (by rw [hinfolen, lq1, lq2]; omega)
      rw [lq1, lq2] at e1 e2
      apply pairFree_spec _ hpf (i - (pos + 28)) (by rw [hinfolen]; omega)
      refine ⟨by rw [← e1]; exact hp1, ?_⟩
      rw [show i - (pos + 28) + 1 = i + 1 - (pos + 28) from by omega, ← e2]
      exact hp2
    · have e2 : nthD b (i + 1) = 34 := by
        have h3 := nthD_lit_of_drop hD
          (show pos + 36 + e.name.length ≤ i + 1 from by omega)
          (show i + 1 < pos + 36 + e.name.length + qfc.length from by rw [lq3]; omega)
        rw [h3, show i + 1 - (pos + 36 + e.name.length) = 0 from by omega]
        decide
      rw [e2] at hp2
      omega
  have hft3 : find_tag b (pos + 36 + e.name.length) =
      some (pos + 36 + e.name.length, qfc) :=
    find_tag_at_lit 13 hD (by decide) (by decide) (by decide) (by decide) (by decide)
      (by decide) (by decide) (by rw [lq3]; omega)
  have hftS2 : find_tag b (pos + qft.length + qfi.length) =
      some (pos + 36 + e.name.length, qfc) := by
    have hcongr := find_tag_congr (8 + e.name.length) (pos + qft.length + qfi.length) hnoop
    rw [hcongr, show pos + qft.length + qfi.length + (8 + e.name.length) =
      pos + 36 + e.name.length from by rw [lq1, lq2]; omega]
    exact hft3
  have hinfodata : sliceL b (pos + qft.length + qfi.length) (pos + 36 + e.name.length) =
      be32bytes e.name.length ++ e.hdr ++ e.name := by
    have h2 := sliceL_lit_of_drop hC
    rw [hinfolen] at h2
    rw [show pos + 36 + e.name.length = pos + qft.length + qfi.length + (8 + e.name.length)
      from by rw [lq1, lq2]; omega]
    exact h2
  have hextract : extract_filename (be32bytes e.name.length ++ e.hdr ++ e.name) =
      ((utf8Decode e.name).map trimQuotes, some e.hdr) :=
    extract_build e.name e.hdr hh4 hn32
  have hE : b.drop (pos + 36 + e.name.length + qfc.length) =
      be32bytes e.content.length ++ (e.meta ++ (e.content ++ rest)) := drop_shift hD
  have hdl := be32_read hE hc32
  have hcds8 : pos + 36 + e.name.length + qfc.length + 8 ≤ b.length := by
    rw [lq3]; omega
  have hmeta : get4 b (pos + 36 + e.name.length + qfc.length + 4) = some e.meta := by
    unfold get4
    rw [if_pos (by rw [lq3]; omega)]
    have hF : b.drop (pos + 36 + e.name.length + qfc.length + 4) =
        e.meta ++ (e.content ++ rest) := by
      have h2 := drop_shift hE
      rw [show (be32bytes e.content.length).length = 4 from rfl] at h2
      exact h2
    have hs := sliceL_lit_of_drop hF
    rw [hm4] at hs
    rw [hs]
  have hG : b.drop (pos + 36 + e.name.length + qfc.length + 4 + 4) =
      e.content ++ rest := by
    have hF : b.drop (pos + 36 + e.name.length + qfc.length + 4) =
        e.meta ++ (e.content ++ rest) := by
      have h2 := drop_shift hE
      rw [show (be32bytes e.content.length).length = 4 from rfl] at h2
      exact h2
    have h2 := drop_shift hF
    rw [hm4] at h2
    exact h2
  have hace : min (pos + 36 + e.name.length + qfc.length + 8 + e.content.length) b.length =
      pos + (buildEntry e).length := by
    rw [hbl, lq3]
    omega
  have hcontent : sliceL b (pos + 36 + e.name.length + qfc.length + 8)
      (pos + (buildEntry e).length) = e.content := by
    have h2 := sliceL_lit_of_drop hG
    rw [show pos + 36 + e.name.length + qfc.length + 4 + 4 =
      pos + 36 + e.name.length + qfc.length + 8 from by omega] at h2
    rw [show pos + (buildEntry e).length =
      pos + 36 + e.name.length + qfc.length + 8 + e.content.length from by rw [hbl, lq3]; omega]
    exact h2
  have hstep : parseStep b pos =
      some (some ⟨(utf8Decode e.name).map trimQuotes, some e.hdr, e.content.length,
        some e.meta, e.content,
        sliceL b (pos + 36 + e.name.length + qfc.length) (pos + (buildEntry e).length),
        pos + 36 + e.name.length + qfc.length⟩, pos + (buildEntry e).length) := by
    unfold parseStep
    simp only [hft1, hft2, hftS2, hft3, hinfodata, hextract, hdl, hmeta, hace, hcontent,
      hcds8, show utf8Decode qft = some qft from by decide,
      show utf8Decode qfi = some qfi from by decide,
      show utf8Decode qfc = some qfc from by decide,
      show trimQuotes qft = ftStr from by decide,
      show trimQuotes qfi = fiStr from by decide,
      show trimQuotes qfc = fcStr from by decide,
      Option.getD_some, ne_eq, eq_self_iff_true, not_true, if_false, if_true, ite_true,
      ite_false]
  refine ⟨⟨(utf8Decode e.name).map trimQuotes, some e.hdr, e.content.length,
    some e.meta, e.content,
    sliceL b (pos + 36 + e.name.length + qfc.length) (pos + (buildEntry e).length),
    pos + 36 + e.name.length + qfc.length⟩, ?_, ?_⟩
  · rw [parseAll_unfold (show pos < b.length from by omega), hstep]
    rfl
  · unfold recordOf expectedRec
    simp only [nameOk_map_trim hnok]

/-- Parsing from a position at which the concatenated framings of a list
of good entries start yields exactly their records in order. -/
theorem parse_build_concat :
    ∀ (es : List BuildSpec) (b : List Nat) (pos : Nat),
      b.drop pos = concatBuild es → (∀ e ∈ es, goodSpec e) →
      (parseAll b pos).map recordOf = es.map expectedRec
  | [], b, pos => by
    intro hdrop _
    have h0 : (b.drop pos).length = 0 := by rw [hdrop]; rfl
    rw [List.length_drop] at h0
    rw [parseAll_stop (show ¬ pos < b.length from by omega)]
    rfl
  | e :: es, b, pos => by
    intro hdrop hgood
    have hdrop2 : b.drop pos = buildEntry e ++ concatBuild es := by
      rw [hdrop]
      simp [concatBuild]
    obtain ⟨fe, hfe, hrec⟩ := parse_step_build e hdrop2 (hgood e (by simp))
    rw [hfe]
    have hdrop3 : b.drop (pos + (buildEntry e).length) = concatBuild es :=
      drop_shift hdrop2
    have ih := parse_build_concat es b (pos + (buildEntry e).length) hdrop3
      (fun x hx => hgood x (by simp [hx]))
    simp only [List.map_cons, ih, hrec]

/-! ## Lemmas about slice_to_eocd -/

theorem eocdCheck_iff {d : List Nat} {i : Nat} :
    eocdCheck d i = true ↔ (i + 22 ≤ d.length ∧ sliceL d i (i + 4) = eocdSig) := by
  simp only [eocdCheck, Bool.and_eq_true, decide_eq_true_eq, beq_iff_eq]
  constructor
  · rintro ⟨⟨h1, h2⟩, h3⟩
    exact ⟨h3, h2⟩
  · rintro ⟨h1, h2⟩
    exact ⟨⟨by omega, h2⟩, h1⟩

theorem eocdFrom_none {d : List Nat} :
    ∀ k, (∀ i, i ≤ k → ¬ eocdCheck d i = true) → eocdFrom d k = none
  | 0 => by
    intro h
    unfold eocdFrom
    rw [if_neg (h 0 (Nat.le_refl 0))]
  | k + 1 => by
    intro h
    unfold eocdFrom
    rw [if_neg (h (k + 1) (Nat.le_refl _))]
    exact eocdFrom_none k (fun i hi => h i (by omega))

theorem eocdFrom_none_rev {d : List Nat} :
    ∀ k, eocdFrom d k = none → ∀ i, i ≤ k → ¬ eocdCheck d i = true
  | 0 => by
    intro h i hi hc
    have hi0 : i = 0 := by omega
    subst hi0
    unfold eocdFrom at h
    rw [if_pos hc] at h
    simp at h
  | k + 1 => by
    intro h i hi hc
    unfold eocdFrom at h
    by_cases hck : eocdCheck d (k + 1) = true
    · rw [if_pos hck] at h
      simp at h
    · rw [if_neg hck] at h
      have hik : i ≠ k + 1 := fun he => hck (he ▸ hc)
      exact eocdFrom_none_rev k h i (by omega) hc

theorem eocdFrom_found {d : List Nat} :
    ∀ k i, i ≤ k → eocdCheck d i = true →
      (∀ j, i < j → j ≤ k → ¬ eocdCheck d j = true) →
      eocdFrom d k = some (eocdTake d i)
  | 0, i => by
    intro hik hc _
    have hi0 : i = 0 := by omega
    subst hi0
    unfold eocdFrom
    rw [if_pos hc]
  | k + 1, i => by
    intro hik hc hmax
    unfold eocdFrom
    by_cases hck : eocdCheck d (k + 1) = true
    · have hi : i = k + 1 := by
        by_contra hne
        exact hmax (k + 1) (by omega) (Nat.le_refl _) hck
      subst hi
      rw [if_pos hck]
    · rw [if_neg hck]
      have hik2 : i ≠ k + 1 := fun he => hck (he ▸ hc)
      exact eocdFrom_found k i (by omega) hc (fun j h1 h2 => hmax j h1 (by omega))

theorem eocdTake_eq (d : List Nat) (i : Nat) :
    eocdTake d i =
      d.take (min (i + 22 + le16 (nthD d (i + 20)) (nthD d (i + 21))) d.length) := by
  unfold eocdTake
  by_cases h : i + 22 + le16 (nthD d (i + 20)) (nthD d (i + 21)) ≤ d.length
  · rw [if_pos h, Nat.min_eq_left h]
  · rw [if_neg h, Nat.min_eq_right (by omega), List.take_length]

/-! ## Lemmas about detect_file_type -/

theorem containerHit_of_pat {d : List Nat} (h16 : 16 ≤ d.length)
    (h : (∃ p, p < 100 ∧ sliceL d p (p + 14) = ftPat14) ∨
         (∃ i, i < 100 ∧ i + 16 < d.length ∧ sliceL d i (i + 16) = 34 :: 60 :: ftStr)) :
    containerHit d = true := by
  cases h with
  | inl h =>
    obtain ⟨p, hp, hpat⟩ := h
    have hlenp : p + 14 ≤ d.length := by
      have := congrArg List.length hpat
      rw [sliceL_length] at this
      have h14 : ftPat14.length = 14 := rfl
      rw [h14] at this
      omega
    obtain ⟨q, hq, hq0, hqp, hqpred⟩ :=
      searchFrom_exists_le (fun x => sliceL d x (x + 14) == ftPat14)
        (d.length + 1 - 14) 0 p (by omega) (by omega) (by simp [hpat])
    unfold containerHit windowsPos14
    rw [hq]
    simp only [Bool.and_eq_true, decide_eq_true_eq, Bool.or_eq_true]
    exact ⟨h16, Or.inl (by omega)⟩
  | inr h =>
    obtain ⟨i, hi100, hi16, hpat⟩ := h
    have hhit : autelLoopHit d i = true := by
      unfold autelLoopHit
      have h2 : sliceL d i (i + 2) = [34, 60] := by
        have ha : sliceL d i (i + 2) = (sliceL d i (i + 16)).take 2 := by
          simp [sliceL, List.take_take]
        rw [ha, hpat]
        rfl
      have hmin : min 16 (d.length - i) = 16 := by omega
      rw [hmin, hpat, h2]
      simp only [beq_self_eq_true, Bool.true_and]
      rw [show utf8Decode (34 :: 60 :: ftStr) = some (34 :: 60 :: ftStr) from by decide]
      decide
    obtain ⟨q, hq, hq0, hqi, hqpred⟩ :=
      searchFrom_exists_le (autelLoopHit d) (min 100 (d.length - 16)) 0 i (by omega)
        (by omega) hhit
    unfold containerHit autelLoop2
    rw [hq]
    simp only [Bool.and_eq_true, decide_eq_true_eq, Bool.or_eq_true]
    refine ⟨h16, Or.inr rfl⟩

theorem detect_of_containerHit (d : List Nat) (fn : Option (List Nat))
    (h4 : ¬ d.length < 4) (hch : containerHit d = true) :
    detect_file_type d fn = FileType.AutelContainer := by
  unfold detect_file_type
  rw [if_neg h4, if_pos hch]

theorem detect_esc_amended (d : List Nat) (h5 : 5 ≤ d.length)
    (hz : sliceL d 0 4 = [0, 0, 0, 0]) (hlo : 20 ≤ nthD d 4) (hhi : nthD d 4 ≤ 23)
    (hch : containerHit d = false) : detect_file_type d none = FileType.UpgEsc := by
  have h2 : sliceL d 0 2 = [0, 0] := by
    have ha : sliceL d 0 2 = (sliceL d 0 4).take 2 := by
      simp [sliceL, List.take_take]
    rw [ha, hz]
    rfl
  unfold detect_file_type
  rw [if_neg (by omega)]
  rw [if_neg (show ¬ containerHit d = true from by rw [hch]; simp)]
  rw [if_neg (show ¬ sliceL d 0 4 = [80, 75, 3, 4] from by rw [hz]; decide)]
  rw [if_neg (show ¬ (2 ≤ d.length ∧ sliceL d 0 2 = [31, 139]) from by
    intro hc
    rw [h2] at hc
    exact absurd hc.2 (by decide))]
  rw [if_neg (show ¬ sliceL d 0 4 = [52, 18, 239, 190] from by rw [hz]; decide)]
  rw [if_neg (show ¬ sliceL d 0 4 = [85, 80, 70, 83] from by rw [hz]; decide)]
  rw [if_neg (show ¬ sliceL d 0 4 = [2, 170, 85, 170] from by rw [hz]; decide)]
  rw [if_pos ⟨hz, h5, hlo, hhi⟩]

theorem utf8Fallback_not_content (d : List Nat) : contentTag (utf8Fallback d) = false := by
  unfold utf8Fallback
  cases utf8Decode d with
  | none => rfl
  | some x =>
    simp only []
    split <;> rfl

theorem detect_content_hint_invariant (d name : List Nat) (t : FileType)
    (hdet : detect_file_type d none = t) (hct : contentTag t = true) :
    detect_file_type d (some name) = t := by
  unfold detect_file_type at hdet ⊢
  by_cases h1 : d.length < 4
  · rw [if_pos h1] at hdet ⊢
    rw [← hdet] at hct
    simp [contentTag] at hct
  · rw [if_neg h1] at hdet ⊢
    by_cases h2 : containerHit d = true
    · rw [if_pos h2] at hdet ⊢
      exact hdet
    · rw [if_neg h2] at hdet ⊢
      by_cases h3 : sliceL d 0 4 = [80, 75, 3, 4]
      · rw [if_pos h3] at hdet ⊢
        exact hdet
      · rw [if_neg h3] at hdet ⊢
        by_cases h4 : 2 ≤ d.length ∧ sliceL d 0 2 = [31, 139]
        · rw [if_pos h4] at hdet ⊢
          exact hdet
        · rw [if_neg h4] at hdet ⊢
          by_cases h5 : sliceL d 0 4 = [52, 18, 239, 190]
          · rw [if_pos h5] at hdet ⊢
            exact hdet
          · rw [if_neg h5] at hdet ⊢
            by_cases h6 : sliceL d 0 4 = [85, 80, 70, 83]
            · rw [if_pos h6] at hdet ⊢
              exact hdet
            · rw [if_neg h6] at hdet ⊢
              by_cases h7 : sliceL d 0 4 = [2, 170, 85, 170]
              · rw [if_pos h7] at hdet ⊢
                exact hdet
              · rw [if_neg h7] at hdet ⊢
                by_cases h8 : sliceL d 0 4 = [0, 0, 0, 0] ∧ 5 ≤ d.length
                    ∧ 20 ≤ nthD d 4 ∧ nthD d 4 ≤ 23
                · rw [if_pos h8] at hdet ⊢
                  exact hdet
                · rw [if_neg h8] at hdet ⊢
                  by_cases h9 : 8 ≤ d.length ∧
                      sliceL d 0 8 = [64, 84, 68, 49, 48, 53, 48, 120]
                  · rw [if_pos h9] at hdet ⊢
                    exact hdet
                  · rw [if_neg h9] at hdet ⊢
                    have hfb : utf8Fallback d = t := hdet
                    have hcf : contentTag t = false := by
                      rw [← hfb]
                      exact utf8Fallback_not_content d
                    rw [hcf] at hct
                    simp at hct

theorem detect_text_json_hint (d name : List Nat)
    (hdet : detect_file_type d none = FileType.Text)
    (hj : endsWithSeq [46, 106, 115, 111, 110] name = true) :
    detect_file_type d (some name) = FileType.Json := by
  unfold detect_file_type at hdet ⊢
  by_cases h1 : d.length < 4
  · rw [if_pos h1] at hdet
    exact absurd hdet (by decide)
  · rw [if_neg h1] at hdet ⊢
    by_cases h2 : containerHit d = true
    · rw [if_pos h2] at hdet
      exact absurd hdet (by decide)
    · rw [if_neg h2] at hdet ⊢
      by_cases h3 : sliceL d 0 4 = [80, 75, 3, 4]
      · rw [if_pos h3] at hdet
        exact absurd hdet (by decide)
      · rw [if_neg h3] at hdet ⊢
        by_cases h4 : 2 ≤ d.length ∧ sliceL d 0 2 = [31, 139]
        · rw [if_pos h4] at hdet
          exact absurd hdet (by decide)
        · rw [if_neg h4] at hdet ⊢
          by_cases h5 : sliceL d 0 4 = [52, 18, 239, 190]
          · rw [if_pos h5] at hdet
            split at hdet <;> exact absurd hdet (by decide)
          · rw [if_neg h5] at hdet ⊢
            by_cases h6 : sliceL d 0 4 = [85, 80, 70, 83]
            · rw [if_pos h6] at hdet
              exact absurd hdet (by decide)
            · rw [if_neg h6] at hdet ⊢
              by_cases h7 : sliceL d 0 4 = [2, 170, 85, 170]
              · rw [if_pos h7] at hdet
                exact absurd hdet (by decide)
              · rw [if_neg h7] at hdet ⊢
                by_cases h8 : sliceL d 0 4 = [0, 0, 0, 0] ∧ 5 ≤ d.length
                    ∧ 20 ≤ nthD d 4 ∧ nthD d 4 ≤ 23
                · rw [if_pos h8] at hdet
                  exact absurd hdet (by decide)
                · rw [if_neg h8] at hdet ⊢
                  by_cases h9 : 8 ≤ d.length ∧
                      sliceL d 0 8 = [64, 84, 68, 49, 48, 53, 48, 120]
                  · rw [if_pos h9] at hdet
                    exact absurd hdet (by decide)
                  · rw [if_neg h9]
                    show (if endsWithSeq [46, 106, 115, 111, 110] name = true
                      then FileType.Json
                      else if endsWithSeq [46, 122, 105, 112] name = true then FileType.Zip
                      else utf8Fallback d) = FileType.Json
                    rw [if_pos hj]

theorem startsWithSeq_head {a : Nat} {s l : List Nat}
    (h : startsWithSeq (a :: s) l = true) : l.head? = some a := by
  cases l with
  | nil => simp [startsWithSeq] at h
  | cons b t =>
    simp only [startsWithSeq, Bool.and_eq_true, beq_iff_eq] at h
    simp [h.1]

theorem zip_hint_not_json {name : List Nat}
    (hz : endsWithSeq [46, 122, 105, 112] name = true) :
    ¬ endsWithSeq [46, 106, 115, 111, 110] name = true := by
  intro hj
  have hz2 : startsWithSeq [112, 105, 122, 46] name.reverse = true := by
    simpa [endsWithSeq] using hz
  have hj2 : startsWithSeq [110, 111, 115, 106, 46] name.reverse = true := by
    simpa [endsWithSeq] using hj
  have h1 := startsWithSeq_head hz2
  have h2 := startsWithSeq_head hj2
  rw [h1] at h2
  exact absurd h2 (by decide)

theorem detect_text_zip_hint (d name : List Nat)
    (hdet : detect_file_type d none = FileType.Text)
    (hz : endsWithSeq [46, 122, 105, 112] name = true) :
    detect_file_type d (some name) = FileType.Zip := by
  unfold detect_file_type at hdet ⊢
  by_cases h1 : d.length < 4
  · rw [if_pos h1] at hdet
    exact absurd hdet (by decide)
  · rw [if_neg h1] at hdet ⊢
    by_cases h2 : containerHit d = true
    · rw [if_pos h2] at hdet
      exact absurd hdet (by decide)
    · rw [if_neg h2] at hdet ⊢
      by_cases h3 : sliceL d 0 4 = [80, 75, 3, 4]
      · rw [if_pos h3] at hdet
        exact absurd hdet (by decide)
      · rw [if_neg h3] at hdet ⊢
        by_cases h4 : 2 ≤ d.length ∧ sliceL d 0 2 = [31, 139]
        · rw [if_pos h4] at hdet
          exact absurd hdet (by decide)
        · rw [if_neg h4] at hdet ⊢
          by_cases h5 : sliceL d 0 4 = [52, 18, 239, 190]
          · rw [if_pos h5] at hdet
            split at hdet <;> exact absurd hdet (by decide)
          · rw [if_neg h5] at hdet ⊢
            by_cases h6 : sliceL d 0 4 = [85, 80, 70, 83]
            · rw [if_pos h6] at hdet
              exact absurd hdet (by decide)
            · rw [if_neg h6] at hdet ⊢
              by_cases h7 : sliceL d 0 4 = [2, 170, 85, 170]
              · rw [if_pos h7] at hdet
                exact absurd hdet (by decide)
              · rw [if_neg h7] at hdet ⊢
                by_cases h8 : sliceL d 0 4 = [0, 0, 0, 0] ∧ 5 ≤ d.length
                    ∧ 20 ≤ nthD d 4 ∧ nthD d 4 ≤ 23
                · rw [if_pos h8] at hdet
                  exact absurd hdet (by decide)
                · rw [if_neg h8] at hdet ⊢
                  by_cases h9 : 8 ≤ d.length ∧
                      sliceL d 0 8 = [64, 84, 68, 49, 48, 53, 48, 120]
                  · rw [if_pos h9] at hdet
                    exact absurd hdet (by decide)
                  · rw [if_neg h9]
                    show (if endsWithSeq [46, 106, 115, 111, 110] name = true
                      then FileType.Json
                      else if endsWithSeq [46, 122, 105, 112] name = true then FileType.Zip
                      else utf8Fallback d) = FileType.Zip
                    rw [if_neg (zip_hint_not_json hz), if_pos hz]

/-! ## Agreement of the checked variants with the total embedding -/

theorem sliceC_some {l : List Nat} {a c : Nat} (h1 : a ≤ c) (h2 : c ≤ l.length) :
    sliceC l a c = some (sliceL l a c) := by
  unfold sliceC
  rw [if_pos ⟨h1, h2⟩]

theorem getElem?_some_of_lt {l : List Nat} {i : Nat} (h : i < l.length) :
    l[i]? = some (nthD l i) := by
  cases hx : l[i]? with
  | none =>
    rw [List.getElem?_eq_none_iff] at hx
    omega
  | some w => simp [nthD, hx]

theorem findTagEndGoC_eq {b : List Nat} :
    ∀ (f j : Nat), j + f ≤ b.length - 1 →
      findTagEndGoC b j f = some (searchFrom (tagCloseAt b) j f)
  | 0, j => by intro _; rfl
  | f + 1, j => by
    intro h
    unfold findTagEndGoC
    rw [getElem?_some_of_lt (show j < b.length from by omega)]
    simp only []
    rw [show searchFrom (tagCloseAt b) j (f + 1) =
      if tagCloseAt b j then some j else searchFrom (tagCloseAt b) (j + 1) f from rfl]
    by_cases hc : tagCloseAt b j = true
    · have hc2 : nthD b j = 62 ∧ b[j + 1]? = some 34 := by
        simpa [tagCloseAt] using hc
      rw [if_pos hc2, if_pos hc]
    · have hc2 : ¬(nthD b j = 62 ∧ b[j + 1]? = some 34) := by
        intro hx
        exact hc (by simp [tagCloseAt, hx.1, hx.2])
      rw [if_neg hc2, if_neg hc]
      exact findTagEndGoC_eq f (j + 1) (by omega)

theorem findTagEndC_eq (b : List Nat) (i : Nat) : findTagEndC b i = some (findTagEnd b i) := by
  unfold findTagEndC findTagEnd
  by_cases h : i + 2 ≤ b.length - 1
  · exact findTagEndGoC_eq _ _ (by omega)
  · rw [show b.length - 1 - (i + 2) = 0 from by omega]
    rfl

theorem findTagGoC_eq {b : List Nat} :
    ∀ (f i : Nat), findTagGoC b i f = some (findTagGo b i f)
  | 0, i => rfl
  | f + 1, i => by
    unfold findTagGoC
    rw [findTagGo_succ]
    by_cases hg : i < b.length - 3
    · rw [if_pos hg, if_pos hg]
      rw [getElem?_some_of_lt (show i < b.length from by omega)]
      rw [getElem?_some_of_lt (show i + 1 < b.length from by omega)]
      by_cases hop : nthD b i = 34 ∧ nthD b (i + 1) = 60
      · simp only [if_pos hop, findTagEndC_eq]
        cases hfe : findTagEnd b i with
        | none =>
          simp only [hfe]
          exact findTagGoC_eq f (i + 2)
        | some j =>
          simp only [hfe]
          obtain ⟨hj1, hj2, _⟩ := findTagEnd_some_spec hfe
          rw [sliceC_some (by omega) (by omega)]
          rfl
      · simp only [if_neg hop]
        exact findTagGoC_eq f (i + 1)
    · rw [if_neg hg, if_neg hg]

theorem find_tagC_eq (b : List Nat) (s : Nat) : find_tagC b s = some (find_tag b s) :=
  findTagGoC_eq _ _

theorem extract_filenameC_eq (info : List Nat) :
    extract_filenameC info = some (extract_filename info) := by
  unfold extract_filenameC extract_filename
  by_cases h8 : info.length < 8
  · rw [if_pos h8, if_pos h8]
  · rw [if_neg h8, if_neg h8]
    rw [getElem?_some_of_lt (show 0 < info.length from by omega)]
    rw [getElem?_some_of_lt (show 1 < info.length from by omega)]
    rw [getElem?_some_of_lt (show 2 < info.length from by omega)]
    rw [getElem?_some_of_lt (show 3 < info.length from by omega)]
    simp only []
    by_cases h2 : info.length <
        8 + be32 (nthD info 0) (nthD info 1) (nthD info 2) (nthD info 3)
    · rw [if_pos h2, if_pos h2]
    · rw [if_neg h2, if_neg h2, sliceC_some (by omega) (by omega)]

theorem parseStepC_eq (b : List Nat) (pos : Nat) :
    parseStepC b pos = some (parseStep b pos) := by
  unfold parseStepC parseStep
  rw [find_tagC_eq]
  cases h1 : find_tag b pos with
  | none => rfl
  | some r1 =>
    obtain ⟨start, tagBytes⟩ := r1
    simp only []
    cases h2 : utf8Decode tagBytes with
    | none => rfl
    | some tagCs =>
      simp only []
      by_cases h3 : trimQuotes tagCs ≠ ftStr
      · rw [if_pos h3, if_pos h3]
      · rw [if_neg h3, if_neg h3, find_tagC_eq]
        cases h4 : find_tag b (start + tagBytes.length) with
        | none => rfl
        | some r2 =>
          obtain ⟨infoStart, infoTag⟩ := r2
          have hs2 := find_tag_some_spec h4
          simp only []
          by_cases h5 : trimQuotes ((utf8Decode infoTag).getD []) ≠ fiStr
          · rw [if_pos h5, if_pos h5]
          · rw [if_neg h5, if_neg h5, find_tagC_eq]
            have hids : infoStart + infoTag.length ≤ b.length := by omega
            cases h6 : find_tag b (infoStart + infoTag.length) with
            | none =>
              have e1 : sliceC b (infoStart + infoTag.length) b.length =
                  some (sliceL b (infoStart + infoTag.length) b.length) :=
                sliceC_some (by omega) (Nat.le_refl _)
              simp only [e1, extract_filenameC_eq, find_tagC_eq]
              cases h7 : find_tag b b.length with
              | none => rfl
              | some r3 =>
                obtain ⟨cStart, cTag⟩ := r3
                have hs3 := find_tag_some_spec h7
                simp only []
                by_cases h8 : trimQuotes ((utf8Decode cTag).getD []) ≠ fcStr
                · rw [if_pos h8, if_pos h8]
                · rw [if_neg h8, if_neg h8]
                  have hcds : cStart + cTag.length ≤ b.length := by omega
                  by_cases h9 : cStart + cTag.length + 8 ≤ b.length
                  · have g0 := getElem?_some_of_lt
                      (show cStart + cTag.length < b.length from by omega) (l := b)
                    have g1 := getElem?_some_of_lt
                      (show cStart + cTag.length + 1 < b.length from by omega) (l := b)
                    have g2 := getElem?_some_of_lt
                      (show cStart + cTag.length + 2 < b.length from by omega) (l := b)
                    have g3 := getElem?_some_of_lt
                      (show cStart + cTag.length + 3 < b.length from by omega) (l := b)
                    have e2 : sliceC b (cStart + cTag.length + 8)
                        (min (cStart + cTag.length + 8 +
                          be32 (nthD b (cStart + cTag.length))
                            (nthD b (cStart + cTag.length + 1))
                            (nthD b (cStart + cTag.length + 2))
                            (nthD b (cStart + cTag.length + 3))) b.length) =
                        some (sliceL b (cStart + cTag.length + 8)
                          (min (cStart + cTag.length + 8 +
                            be32 (nthD b (cStart + cTag.length))
                              (nthD b (cStart + cTag.length + 1))
                              (nthD b (cStart + cTag.length + 2))
                              (nthD b (cStart + cTag.length + 3))) b.length)) :=
                      sliceC_some (by omega) (by omega)
                    have e3 : sliceC b (cStart + cTag.length)
                        (min (cStart + cTag.length + 8 +
                          be32 (nthD b (cStart + cTag.length))
                            (nthD b (cStart + cTag.length + 1))
                            (nthD b (cStart + cTag.length + 2))
                            (nthD b (cStart + cTag.length + 3))) b.length) =
                        some (sliceL b (cStart + cTag.length)
                          (min (cStart + cTag.length + 8 +
                            be32 (nthD b (cStart + cTag.length))
                              (nthD b (cStart + cTag.length + 1))
                              (nthD b (cStart + cTag.length + 2))
                              (nthD b (cStart + cTag.length + 3))) b.length)) :=
                      sliceC_some (by omega) (by omega)
                    simp only [if_pos h9, g0, g1, g2, g3, e2, e3]
                  · have e4 : sliceC b (cStart + cTag.length)
                        (min (cStart + cTag.length) b.length) =
                        some (sliceL b (cStart + cTag.length)
                          (min (cStart + cTag.length) b.length)) :=
                      sliceC_some (by omega) (by omega)
                    simp only [if_neg h9, e4]
            | some r3 =>
              obtain ⟨nti0, t3⟩ := r3
              have hs25 := find_tag_some_spec h6
              have e1 : sliceC b (infoStart + infoTag.length) nti0 =
                  some (sliceL b (infoStart + infoTag.length) nti0) :=
                sliceC_some (by omega) (by omega)
              simp only [e1, extract_filenameC_eq, find_tagC_eq]
              cases h7 : find_tag b nti0 with
              | none => rfl
              | some r4 =>
                obtain ⟨cStart, cTag⟩ := r4
                have hs3 := find_tag_some_spec h7
                simp only []
                by_cases h8 : trimQuotes ((utf8Decode cTag).getD []) ≠ fcStr
                · rw [if_pos h8, if_pos h8]
                · rw [if_neg h8, if_neg h8]
                  by_cases h9 : cStart + cTag.length + 8 ≤ b.length
                  · have g0 := getElem?_some_of_lt
                      (show cStart + cTag.length < b.length from by omega) (l := b)
                    have g1 := getElem?_some_of_lt
                      (show cStart + cTag.length + 1 < b.length from by omega) (l := b)
                    have g2 := getElem?_some_of_lt
                      (show cStart + cTag.length + 2 < b.length from by omega) (l := b)
                    have g3 := getElem?_some_of_lt
                      (show cStart + cTag.length + 3 < b.length from by omega) (l := b)
                    have e2 : sliceC b (cStart + cTag.length + 8)
                        (min (cStart + cTag.length + 8 +
                          be32 (nthD b (cStart + cTag.length))
                            (nthD b (cStart + cTag.length + 1))
                            (nthD b (cStart + cTag.length + 2))
                            (nthD b (cStart + cTag.length + 3))) b.length) =
                        some (sliceL b (cStart + cTag.length + 8)
                          (min (cStart + cTag.length + 8 +
                            be32 (nthD b (cStart + cTag.length))
                              (nthD b (cStart + cTag.length + 1))
                              (nthD b (cStart + cTag.length + 2))
                              (nthD b (cStart + cTag.length + 3))) b.length)) :=
                      sliceC_some (by omega) (by omega)
                    have e3 : sliceC b (cStart + cTag.length)
                        (min (cStart + cTag.length + 8 +
                          be32 (nthD b (cStart + cTag.length))
                            (nthD b (cStart + cTag.length + 1))
                            (nthD b (cStart + cTag.length + 2))
                            (nthD b (cStart + cTag.length + 3))) b.length) =
                        some (sliceL b (cStart + cTag.length)
                          (min (cStart + cTag.length + 8 +
                            be32 (nthD b (cStart + cTag.length))
                              (nthD b (cStart + cTag.length + 1))
                              (nthD b (cStart + cTag.length + 2))
                              (nthD b (cStart + cTag.length + 3))) b.length)) :=
                      sliceC_some (by omega) (by omega)
                    simp only [if_pos h9, g0, g1, g2, g3, e2, e3]
                  · have e4 : sliceC b (cStart + cTag.length)
                        (min (cStart + cTag.length) b.length) =
                        some (sliceL b (cStart + cTag.length)
                          (min (cStart + cTag.length) b.length)) :=
                      sliceC_some (by omega) (by omega)
                    simp only [if_neg h9, e4]

theorem parseGoC_eq {b : List Nat} :
    ∀ (f pos : Nat), parseGoC b pos f = some (parseGo b pos f)
  | 0, pos => rfl
  | f + 1, pos => by
    unfold parseGoC
    rw [parseGo_succ]
    by_cases hp : pos < b.length
    · rw [if_pos hp, if_pos hp, parseStepC_eq]
      cases hs : parseStep b pos with
      | none => rfl
      | some r =>
        obtain ⟨oe, p2⟩ := r
        simp only []
        rw [parseGoC_eq f p2]
        rfl
    · rw [if_neg hp, if_neg hp]

theorem parse_file_entriesC_eq (b : List Nat) :
    parse_file_entriesC b = some (parse_file_entries b) :=
  parseGoC_eq _ _

theorem eocdCheckC_eq (d : List Nat) (i : Nat) : eocdCheckC d i = some (eocdCheck d i) := by
  unfold eocdCheckC eocdCheck
  by_cases h4 : i + 4 ≤ d.length
  · rw [if_pos h4, sliceC_some (by omega) (by omega)]
    simp [h4]
  · rw [if_neg h4]
    simp [h4]

theorem eocdTakeC_eq (d : List Nat) (i : Nat) (h : eocdCheck d i = true) :
    eocdTakeC d i = some (eocdTake d i) := by
  have h22 : i + 22 ≤ d.length := (eocdCheck_iff.mp h).1
  unfold eocdTakeC eocdTake
  rw [getElem?_some_of_lt (show i + 20 < d.length from by omega)]
  rw [getElem?_some_of_lt (show i + 21 < d.length from by omega)]
  simp only []
  by_cases hend : i + 22 + le16 (nthD d (i + 20)) (nthD d (i + 21)) ≤ d.length
  · rw [if_pos hend, if_pos hend, sliceC_some (by omega) (by omega), sliceL_zero]
  · rw [if_neg hend, if_neg hend]

theorem eocdFromC_eq (d : List Nat) : ∀ k, eocdFromC d k = some (eocdFrom d k)
  | 0 => by
    unfold eocdFromC eocdFrom
    rw [eocdCheckC_eq]
    by_cases hc : eocdCheck d 0 = true
    · rw [hc]
      simp only [eocdTakeC_eq d 0 hc]
      rfl
    · have hc2 : eocdCheck d 0 = false := by
        revert hc
        cases eocdCheck d 0 <;> simp
      rw [hc2]
      rfl
  | k + 1 => by
    unfold eocdFromC eocdFrom
    rw [eocdCheckC_eq]
    by_cases hc : eocdCheck d (k + 1) = true
    · rw [hc]
      simp only [eocdTakeC_eq d (k + 1) hc]
      rfl
    · have hc2 : eocdCheck d (k + 1) = false := by
        revert hc
        cases eocdCheck d (k + 1) <;> simp
      rw [hc2]
      exact eocdFromC_eq d k

theorem slice_to_eocdC_eq (d : List Nat) : slice_to_eocdC d = some (slice_to_eocd d) :=
  eocdFromC_eq d _

theorem autelLoop2GoC_eq {d : List Nat} :
    ∀ (f i : Nat), i + f ≤ d.length - 16 →
      autelLoop2GoC d i f = some (searchFrom (autelLoopHit d) i f)
  | 0, i => by intro _; rfl
  | f + 1, i => by
    intro h
    have hi : i + 16 < d.length := by omega
    unfold autelLoop2GoC
    have e2 : sliceC d i (i + 2) = some (sliceL d i (i + 2)) :=
      sliceC_some (by omega) (by omega)
    have e16 : sliceC d i (i + min 16 (d.length - i)) =
        some (sliceL d i (i + min 16 (d.length - i))) :=
      sliceC_some (by omega) (by omega)
    rw [show searchFrom (autelLoopHit d) i (f + 1) =
      if autelLoopHit d i then some i else searchFrom (autelLoopHit d) (i + 1) f from rfl]
    simp only [e2]
    by_cases hs2 : sliceL d i (i + 2) = [34, 60]
    · simp only [if_pos hs2, e16]
      by_cases hcont : (match utf8Decode (sliceL d i (i + min 16 (d.length - i))) with
          | some s => containsSeq ftStr s
          | none => false) = true
      · rw [if_pos hcont]
        have hhit : autelLoopHit d i = true := by
          unfold autelLoopHit
          simp [hs2, hcont]
        rw [if_pos hhit]
      · rw [if_neg hcont]
        have hhit : autelLoopHit d i = false := by
          unfold autelLoopHit
          simp only [Bool.and_eq_false_iff]
          right
          revert hcont
          cases hm : (match utf8Decode (sliceL d i (i + min 16 (d.length - i))) with
              | some s => containsSeq ftStr s
              | none => false) <;> simp
        rw [if_neg (by rw [hhit]; simp)]
        exact autelLoop2GoC_eq f (i + 1) (by omega)
    · simp only [if_neg hs2]
      have hhit : autelLoopHit d i = false := by
        unfold autelLoopHit
        simp [hs2]
      rw [if_neg (by rw [hhit]; simp)]
      exact autelLoop2GoC_eq f (i + 1) (by omega)

theorem containerHitC_eq (d : List Nat) : containerHitC d = some (containerHit d) := by
  unfold containerHitC containerHit
  by_cases h16 : 16 ≤ d.length
  · rw [if_pos h16]
    have hloop : autelLoop2GoC d 0 (min 100 (d.length - 16)) = some (autelLoop2 d) := by
      unfold autelLoop2
      exact autelLoop2GoC_eq _ 0 (by omega)
    cases hw : windowsPos14 d with
    | some p =>
      by_cases hp : p < 100
      · simp [h16, hp, hloop]
      · simp [h16, hp, hloop]
    | none =>
      simp [h16, hloop]
  · rw [if_neg h16]
    simp [h16]

theorem utf8FallbackC_eq (d : List Nat) : utf8FallbackC d = some (utf8Fallback d) := by
  unfold utf8FallbackC utf8Fallback
  cases hu : utf8Decode d with
  | none => rfl
  | some x =>
    simp only []
    by_cases ht : (d.findIdx? (fun b => !isAsciiWs b)).getD 0 < d.length
    · rw [if_pos ht, getElem?_some_of_lt ht]
      by_cases hx : nthD d ((d.findIdx? (fun b => !isAsciiWs b)).getD 0) = 123 ∨
          nthD d ((d.findIdx? (fun b => !isAsciiWs b)).getD 0) = 91
      · simp [ht, hx]
      · simp [ht, hx]
    · rw [if_neg ht]
      simp [ht]

theorem detectNameC_eq (d : List Nat) (fn : Option (List Nat))
    (h4 : ¬ d.length < 4) (hch : containerHit d = false)
    (hpk : ¬ sliceL d 0 4 = [80, 75, 3, 4])
    (hgz : ¬ (2 ≤ d.length ∧ sliceL d 0 2 = [31, 139]))
    (hgm : ¬ sliceL d 0 4 = [52, 18, 239, 190])
    (hfc : ¬ sliceL d 0 4 = [85, 80, 70, 83])
    (hbm : ¬ sliceL d 0 4 = [2, 170, 85, 170])
    (hes : ¬ (sliceL d 0 4 = [0, 0, 0, 0] ∧ 5 ≤ d.length ∧ 20 ≤ nthD d 4 ∧ nthD d 4 ≤ 23))
    (hgp : ¬ (8 ≤ d.length ∧ sliceL d 0 8 = [64, 84, 68, 49, 48, 53, 48, 120])) :
    detectNameC d fn = some (detect_file_type d fn) := by
  unfold detect_file_type
  rw [if_neg h4, if_neg (show ¬ containerHit d = true from by rw [hch]; simp), if_neg hpk, if_neg hgz, if_neg hgm,
    if_neg hfc, if_neg hbm, if_neg hes, if_neg hgp]
  unfold detectNameC
  cases fn with
  | none => exact utf8FallbackC_eq d
  | some name =>
    simp only []
    by_cases h1 : endsWithSeq [46, 106, 115, 111, 110] name = true
    · rw [if_pos h1, if_pos h1]
    · rw [if_neg h1, if_neg h1]
      by_cases h2 : endsWithSeq [46, 122, 105, 112] name = true
      · rw [if_pos h2, if_pos h2]
      · rw [if_neg h2, if_neg h2]
        exact utf8FallbackC_eq d

theorem detectTailC_eq (d : List Nat) (fn : Option (List Nat))
    (h4 : ¬ d.length < 4) (hch : containerHit d = false)
    (hpk : ¬ sliceL d 0 4 = [80, 75, 3, 4])
    (hgz : ¬ (2 ≤ d.length ∧ sliceL d 0 2 = [31, 139]))
    (hgm : ¬ sliceL d 0 4 = [52, 18, 239, 190])
    (hfc : ¬ sliceL d 0 4 = [85, 80, 70, 83])
    (hbm : ¬ sliceL d 0 4 = [2, 170, 85, 170]) :
    detectTailC d fn (sliceL d 0 4) = some (detect_file_type d fn) := by
  unfold detectTailC
  by_cases hz : sliceL d 0 4 = [0, 0, 0, 0] ∧ 5 ≤ d.length
  · rw [if_pos hz, getElem?_some_of_lt (show 4 < d.length from by omega)]
    simp only []
    by_cases hr : 20 ≤ nthD d 4 ∧ nthD d 4 ≤ 23
    · rw [if_pos hr]
      unfold detect_file_type
      rw [if_neg h4, if_neg (show ¬ containerHit d = true from by rw [hch]; simp), if_neg hpk, if_neg hgz, if_neg hgm,
        if_neg hfc, if_neg hbm, if_pos ⟨hz.1, hz.2, hr.1, hr.2⟩]
    · rw [if_neg hr]
      have hes : ¬ (sliceL d 0 4 = [0, 0, 0, 0] ∧ 5 ≤ d.length ∧ 20 ≤ nthD d 4
          ∧ nthD d 4 ≤ 23) := fun hc => hr ⟨hc.2.2.1, hc.2.2.2⟩
      by_cases h8 : 8 ≤ d.length
      · rw [if_pos h8, sliceC_some (by omega) (by omega)]
        simp only []
        by_cases hm8 : sliceL d 0 8 = [64, 84, 68, 49, 48, 53, 48, 120]
        · rw [if_pos hm8]
          unfold detect_file_type
          rw [if_neg h4, if_neg (show ¬ containerHit d = true from by rw [hch]; simp), if_neg hpk, if_neg hgz, if_neg hgm,
            if_neg hfc, if_neg hbm, if_neg hes, if_pos ⟨h8, hm8⟩]
        · rw [if_neg hm8]
          exact detectNameC_eq d fn h4 hch hpk hgz hgm hfc hbm hes (fun hc => hm8 hc.2)
      · rw [if_neg h8]
        exact detectNameC_eq d fn h4 hch hpk hgz hgm hfc hbm hes (fun hc => h8 hc.1)
  · rw [if_neg hz]
    have hes : ¬ (sliceL d 0 4 = [0, 0, 0, 0] ∧ 5 ≤ d.length ∧ 20 ≤ nthD d 4
        ∧ nthD d 4 ≤ 23) := fun hc => hz ⟨hc.1, hc.2.1⟩
    by_cases h8 : 8 ≤ d.length
    · rw [if_pos h8, sliceC_some (by omega) (by omega)]
      simp only []
      by_cases hm8 : sliceL d 0 8 = [64, 84, 68, 49, 48, 53, 48, 120]
      · rw [if_pos hm8]
        unfold detect_file_type
        rw [if_neg h4, if_neg (show ¬ containerHit d = true from by rw [hch]; simp), if_neg hpk, if_neg hgz, if_neg hgm,
          if_neg hfc, if_neg hbm, if_neg hes, if_pos ⟨h8, hm8⟩]
      · rw [if_neg hm8]
        exact detectNameC_eq d fn h4 hch hpk hgz hgm hfc hbm hes (fun hc => hm8 hc.2)
    · rw [if_neg h8]
      exact detectNameC_eq d fn h4 hch hpk hgz hgm hfc hbm hes (fun hc => h8 hc.1)

theorem detectMidC_eq (d : List Nat) (fn : Option (List Nat))
    (h4 : ¬ d.length < 4) (hch : containerHit d = false)
    (hpk : ¬ sliceL d 0 4 = [80, 75, 3, 4])
    (hgz : ¬ (2 ≤ d.length ∧ sliceL d 0 2 = [31, 139])) :
    detectMidC d fn (sliceL d 0 4) = some (detect_file_type d fn) := by
  unfold detectMidC
  by_cases h1 : sliceL d 0 4 = [52, 18, 239, 190]
  · rw [if_pos h1]
    unfold detect_file_type
    rw [if_neg h4, if_neg (show ¬ containerHit d = true from by rw [hch]; simp), if_neg hpk, if_neg hgz, if_pos h1]
    by_cases h5 : 5 ≤ d.length
    · rw [if_pos h5, getElem?_some_of_lt (show 4 < d.length from by omega)]
      simp only []
      by_cases h14 : nthD d 4 = 14
      · rw [if_pos h14, if_pos ⟨h5, h14⟩]
      · rw [if_neg h14, if_neg (fun hc => h14 hc.2)]
    · rw [if_neg h5, if_neg (fun hc => h5 hc.1)]
  · rw [if_neg h1]
    by_cases h2 : sliceL d 0 4 = [85, 80, 70, 83]
    · rw [if_pos h2]
      unfold detect_file_type
      rw [if_neg h4, if_neg (show ¬ containerHit d = true from by rw [hch]; simp), if_neg hpk, if_neg hgz, if_neg h1,
        if_pos h2]
    · rw [if_neg h2]
      by_cases h3 : sliceL d 0 4 = [2, 170, 85, 170]
      · rw [if_pos h3]
        unfold detect_file_type
        rw [if_neg h4, if_neg (show ¬ containerHit d = true from by rw [hch]; simp), if_neg hpk, if_neg hgz, if_neg h1,
          if_neg h2, if_pos h3]
      · rw [if_neg h3]
        exact detectTailC_eq d fn h4 hch hpk hgz h1 h2 h3

theorem detectPkC_eq (d : List Nat) (fn : Option (List Nat))
    (h4 : ¬ d.length < 4) (hch : containerHit d = false) :
    (match sliceC d 0 4 with
     | none => none
     | some m4 =>
       if m4 = [80, 75, 3, 4] then some FileType.Zip
       else
         if 2 ≤ d.length then
           match sliceC d 0 2 with
           | none => none
           | some m2 =>
             if m2 = [31, 139] then some FileType.Gzip else detectMidC d fn m4
         else detectMidC d fn m4) = some (detect_file_type d fn) := by
  rw [sliceC_some (show (0:Nat) ≤ 4 from by omega) (show 4 ≤ d.length from by omega)]
  simp only []
  by_cases hpk : sliceL d 0 4 = [80, 75, 3, 4]
  · rw [if_pos hpk]
    unfold detect_file_type
    rw [if_neg h4, if_neg (show ¬ containerHit d = true from by rw [hch]; simp), if_pos hpk]
  · rw [if_neg hpk, if_pos (show 2 ≤ d.length from by omega)]
    rw [sliceC_some (show (0:Nat) ≤ 2 from by omega) (show 2 ≤ d.length from by omega)]
    simp only []
    by_cases hgzb : sliceL d 0 2 = [31, 139]
    · rw [if_pos hgzb]
      unfold detect_file_type
      rw [if_neg h4, if_neg (show ¬ containerHit d = true from by rw [hch]; simp), if_neg hpk,
        if_pos ⟨show 2 ≤ d.length from by omega, hgzb⟩]
    · rw [if_neg hgzb]
      exact detectMidC_eq d fn h4 hch hpk (fun hc => hgzb hc.2)

theorem detect_file_typeC_eq (d : List Nat) (fn : Option (List Nat)) :
    detect_file_typeC d fn = some (detect_file_type d fn) := by
  unfold detect_file_typeC
  by_cases h4 : d.length < 4
  · rw [if_pos h4]
    unfold detect_file_type
    rw [if_pos h4]
  · rw [if_neg h4, containerHitC_eq]
    cases hch : containerHit d with
    | true =>
      rw [detect_of_containerHit d fn h4 hch]
    | false =>
      exact detectPkC_eq d fn h4 hch

/-! ## The claims -/

/-- Claim C1: every record returned by the container tag parser has an
observed content length equal to the minimum of the declared big-endian
length and the bytes remaining after the 8-byte content framing header,
and content is delimited solely by that declared length: the framing of
trickySpec, whose payload embeds a quoted tag-like byte sequence, parses
to exactly one record carrying the payload whole and unsplit. -/
theorem C1_content_by_declared_length :
    (∀ (b : List Nat) (e : FileEntry), e ∈ parse_file_entries b →
      e.content.length = min e.content_length (b.length - (e.content_data_offset + 8))) ∧
    parse_file_entries (buildEntry trickySpec) = [trickyEntry] ∧
    trickyEntry.content = trickySpec.content ∧
    containsSeq [34, 60, 102, 97, 107, 101, 62, 34] trickyEntry.content = true :=
  ⟨fun b e he => by
      obtain ⟨q, p2, hq⟩ := parse_entries_mem he
      exact parseStep_emit_inv hq,
    by decide, by decide, by decide⟩

/-- Witness for C1 at the framing of trickySpec: its single parsed
record is a member of the parse result and satisfies the length law. -/
theorem C1_content_by_declared_length_witness :
    trickyEntry ∈ parse_file_entries (buildEntry trickySpec) ∧
    trickyEntry.content.length =
      min trickyEntry.content_length
        ((buildEntry trickySpec).length - (trickyEntry.content_data_offset + 8)) := by
  have hm : trickyEntry ∈ parse_file_entries (buildEntry trickySpec) := by
    have h : parse_file_entries (buildEntry trickySpec) = [trickyEntry] := by decide
    rw [h]
    exact List.mem_singleton.mpr rfl
  exact ⟨hm, C1_content_by_declared_length.1 (buildEntry trickySpec) trickyEntry hm⟩

/-- Claim C2: slice_to_eocd returns nothing exactly when no end-of-directory
signature occurs at an offset i with i + 22 within the buffer; otherwise,
at the rightmost such offset i it returns the leading prefix of length
i + 22 + the little-endian comment length read at i + 20, clamped to the
buffer length. -/
theorem C2_slice_to_eocd_characterization :
    (∀ d : List Nat,
      slice_to_eocd d = none ↔
        ∀ i, i + 22 ≤ d.length → sliceL d i (i + 4) ≠ eocdSig) ∧
    (∀ (d : List Nat) (i : Nat), i + 22 ≤ d.length → sliceL d i (i + 4) = eocdSig →
      (∀ j, i < j → j + 22 ≤ d.length → sliceL d j (j + 4) ≠ eocdSig) →
      slice_to_eocd d =
        some (d.take (min (i + 22 + le16 (nthD d (i + 20)) (nthD d (i + 21)))
          d.length))) :=
  ⟨fun d =>
    ⟨fun hnone i h22 hsig =>
      eocdFrom_none_rev (d.length - 22) hnone i (by omega)
        (eocdCheck_iff.mpr ⟨h22, hsig⟩),
     fun hall =>
      eocdFrom_none (d.length - 22) (fun i _ hc =>
        absurd (eocdCheck_iff.mp hc).2 (hall i (eocdCheck_iff.mp hc).1))⟩,
   fun d i h22 hsig hmax => by
    have hfound := eocdFrom_found (d.length - 22) i (by omega)
      (eocdCheck_iff.mpr ⟨h22, hsig⟩)
      (fun j hj1 _ hcj => hmax j hj1 (eocdCheck_iff.mp hcj).1 (eocdCheck_iff.mp hcj).2)
    rw [show slice_to_eocd d = eocdFrom d (d.length - 22) from rfl, hfound, eocdTake_eq]⟩

/-- Witness for C2 at a minimal 22-byte end-of-directory record: the
signature sits at offset 0 and the whole record is returned. -/
theorem C2_slice_to_eocd_characterization_witness :
    0 + 22 ≤ (eocdSig ++ List.replicate 18 0).length ∧
    sliceL (eocdSig ++ List.replicate 18 0) 0 (0 + 4) = eocdSig ∧
    slice_to_eocd (eocdSig ++ List.replicate 18 0) =
      some ((eocdSig ++ List.replicate 18 0).take
        (min (0 + 22 + le16 (nthD (eocdSig ++ List.replicate 18 0) (0 + 20))
            (nthD (eocdSig ++ List.replicate 18 0) (0 + 21)))
          (eocdSig ++ List.replicate 18 0).length)) :=
  ⟨by decide, by decide,
    C2_slice_to_eocd_characterization.2 (eocdSig ++ List.replicate 18 0) 0 (by decide)
      (by decide)
      (fun j h1 h2 => absurd (show j + 22 ≤ 22 from h2) (by omega))⟩

/-- Counterexample to C3 as stated: the claim constrains only the name,
but a 4-byte header field holding the quote byte followed by the open
angle bracket byte derails the info-block delimiting scan, and the
framing of a well-formed entry with such a header parses to zero
records rather than one. -/
theorem C3_counterexample_header_pair :
    (parse_file_entries (buildEntry ⟨[97], [34, 60, 0, 0], [0, 0, 0, 0], []⟩)).length
      = 0 := by
  decide

/-- Claim C3 (amended): the round-trip holds for every finite sequence
of entries whose header and metadata fields are 4 bytes, whose name is
valid UTF-8 without surrounding quotes, whose lengths fit the 4-byte
length fields, and whose length-field, header and name bytes contain no
quote byte followed immediately by an open angle bracket byte; parsing
the concatenated framings yields exactly that many records, in order,
with the expected name, header, metadata and content. -/
theorem C3_roundtrip_amended (es : List BuildSpec) (hgood : ∀ e ∈ es, goodSpec e) :
    (parse_file_entries (concatBuild es)).map recordOf = es.map expectedRec :=
  parse_build_concat es (concatBuild es) 0 (List.drop_zero _) hgood

/-- Witness for C3 at three concrete entries: all three satisfy the side
conditions and the concatenated framings parse back to the three
expected records in order. -/
theorem C3_roundtrip_amended_witness :
    (∀ e ∈ [wSpec1, wSpec2, wSpec3], goodSpec e) ∧
    (parse_file_entries (concatBuild [wSpec1, wSpec2, wSpec3])).map recordOf =
      [wSpec1, wSpec2, wSpec3].map expectedRec :=
  ⟨by decide, C3_roundtrip_amended [wSpec1, wSpec2, wSpec3] (by decide)⟩

/-- Counterexample to C4 as stated: the bare unquoted tag without an
adjacent quote boundary, alone as a 14-byte buffer, begins within the
first 100 bytes yet classifies as Text, not as AutelContainer: the scan
only matches quote-led encodings and buffers of at least 16 bytes. -/
theorem C4_counterexample_unquoted :
    detect_file_type ftStr none = FileType.Text ∧
    detect_file_type ftStr none ≠ FileType.AutelContainer := by
  decide

/-- Claim C4 (amended): for every buffer of at least 16 bytes in which
either the 14-byte quote-led pattern occurs within the first 100 bytes,
or the full quoted tag begins at an offset below 100 with its 16 bytes
strictly inside the buffer, classification returns AutelContainer
regardless of any filename hint. -/
theorem C4_container_marker_amended (d : List Nat) (fn : Option (List Nat))
    (h16 : 16 ≤ d.length)
    (h : (∃ p, p < 100 ∧ sliceL d p (p + 14) = ftPat14) ∨
         (∃ i, i < 100 ∧ i + 16 < d.length ∧ sliceL d i (i + 16) = 34 :: 60 :: ftStr)) :
    detect_file_type d fn = FileType.AutelContainer :=
  detect_of_containerHit d fn (by omega) (containerHit_of_pat h16 h)

/-- Witness for C4 at the 16-byte quoted tag itself with a filename
hint: the quote-led pattern sits at offset 0 and the buffer classifies
as AutelContainer. -/
theorem C4_container_marker_amended_witness :
    16 ≤ qft.length ∧
    detect_file_type qft (some [97, 46, 106, 115, 111, 110]) =
      FileType.AutelContainer :=
  ⟨by decide,
    C4_container_marker_amended qft (some [97, 46, 106, 115, 111, 110]) (by decide)
      (Or.inl ⟨0, by decide, by decide⟩)⟩

/-- Claim C5: totality and panic freedom: the checked variants, in which
every indexing and slicing operation of the source is fallible and any
out-of-bounds access would surface as a failure, succeed and agree with
the total embedding on every buffer, start position and filename hint,
for find_tag, extract_filename, parse_file_entries, slice_to_eocd and
detect_file_type. -/
theorem C5_totality_no_panic :
    (∀ (b : List Nat) (s : Nat), find_tagC b s = some (find_tag b s)) ∧
    (∀ info : List Nat, extract_filenameC info = some (extract_filename info)) ∧
    (∀ b : List Nat, parse_file_entriesC b = some (parse_file_entries b)) ∧
    (∀ d : List Nat, slice_to_eocdC d = some (slice_to_eocd d)) ∧
    (∀ (d : List Nat) (fn : Option (List Nat)),
      detect_file_typeC d fn = some (detect_file_type d fn)) :=
  ⟨find_tagC_eq, extract_filenameC_eq, parse_file_entriesC_eq, slice_to_eocdC_eq,
    detect_file_typeC_eq⟩

/-- Claim C6: an info block shorter than 8 bytes yields neither name nor
header; one of at least 8 bytes whose declared big-endian name length
overruns the bytes available after offset 8 yields the 4-byte header at
offsets 4 to 8 but no name, and neither case fails. -/
theorem C6_extract_filename_guards :
    (∀ info : List Nat, info.length < 8 → extract_filename info = (none, none)) ∧
    (∀ info : List Nat, 8 ≤ info.length →
      info.length < 8 + be32 (nthD info 0) (nthD info 1) (nthD info 2) (nthD info 3) →
      extract_filename info = (none, some (sliceL info 4 8))) :=
  ⟨fun info h8 => by
    unfold extract_filename
    rw [if_pos h8],
   fun info h8 hlen => by
    unfold extract_filename
    rw [if_neg (show ¬ info.length < 8 from by omega)]
    simp only []
    rw [if_pos hlen]
    unfold get4
    rw [if_pos (show 4 + 4 ≤ info.length from by omega)]⟩

/-- Witness for C6 at a 4-byte block and at a 12-byte block declaring a
32-byte name: the first yields neither field, the second yields only the
header bytes 1 2 3 4. -/
theorem C6_extract_filename_guards_witness :
    ([(0 : Nat), 0, 0, 5].length < 8 ∧
      extract_filename [0, 0, 0, 5] = (none, none)) ∧
    (8 ≤ [(0 : Nat), 0, 0, 32, 1, 2, 3, 4, 116, 101, 115, 116].length ∧
      extract_filename [0, 0, 0, 32, 1, 2, 3, 4, 116, 101, 115, 116] =
        (none, some (sliceL [0, 0, 0, 32, 1, 2, 3, 4, 116, 101, 115, 116] 4 8))) :=
  ⟨⟨by decide, C6_extract_filename_guards.1 [0, 0, 0, 5] (by decide)⟩,
   ⟨by decide,
     C6_extract_filename_guards.2 [0, 0, 0, 32, 1, 2, 3, 4, 116, 101, 115, 116]
       (by decide) (by decide)⟩⟩

/-- Claim C7: classification priority: a tag decided by content evidence
is unchanged by any filename hint; a buffer that would sniff as Text
classifies as Json under a name ending in the json extension and as Zip
under a name ending in the zip extension, so both halves of the
extension fallback outrank the sniff; concretely a buffer with the
local-file magic classifies as Zip despite a json hint, a plain-text
buffer with a json hint classifies as Json, and a plain-text buffer with
a zip hint classifies as Zip. -/
theorem C7_classification_priority :
    (∀ (d name : List Nat) (t : FileType), detect_file_type d none = t →
      contentTag t = true → detect_file_type d (some name) = t) ∧
    (∀ d name : List Nat, detect_file_type d none = FileType.Text →
      endsWithSeq [46, 106, 115, 111, 110] name = true →
      detect_file_type d (some name) = FileType.Json) ∧
    (∀ d name : List Nat, detect_file_type d none = FileType.Text →
      endsWithSeq [46, 122, 105, 112] name = true →
      detect_file_type d (some name) = FileType.Zip) ∧
    detect_file_type [80, 75, 3, 4, 1, 2, 3, 4] (some [97, 46, 106, 115, 111, 110]) =
      FileType.Zip ∧
    detect_file_type [104, 101, 108, 108, 111] (some [97, 46, 106, 115, 111, 110]) =
      FileType.Json ∧
    detect_file_type [104, 101, 108, 108, 111] (some [97, 46, 122, 105, 112]) =
      FileType.Zip :=
  ⟨detect_content_hint_invariant, detect_text_json_hint, detect_text_zip_hint,
    by decide, by decide, by decide⟩

/-- Witness for C7: the Zip tag decided by the local-file magic survives
an unrelated filename hint, a plain-text buffer under a json-named hint
classifies as Json, and the same plain-text buffer under a zip-named
hint classifies as Zip. -/
theorem C7_classification_priority_witness :
    (detect_file_type [80, 75, 3, 4, 1, 2, 3, 4] none = FileType.Zip ∧
      contentTag FileType.Zip = true ∧
      detect_file_type [80, 75, 3, 4, 1, 2, 3, 4] (some [98]) = FileType.Zip) ∧
    (detect_file_type [104, 101, 108, 108, 111] none = FileType.Text ∧
      endsWithSeq [46, 106, 115, 111, 110] [98, 46, 106, 115, 111, 110] = true ∧
      detect_file_type [104, 101, 108, 108, 111] (some [98, 46, 106, 115, 111, 110]) =
        FileType.Json) ∧
    (detect_file_type [104, 101, 108, 108, 111] none = FileType.Text ∧
      endsWithSeq [46, 122, 105, 112] [98, 46, 122, 105, 112] = true ∧
      detect_file_type [104, 101, 108, 108, 111] (some [98, 46, 122, 105, 112]) =
        FileType.Zip) :=
  ⟨⟨by decide, by decide,
     C7_classification_priority.1 [80, 75, 3, 4, 1, 2, 3, 4] [98] FileType.Zip
       (by decide) (by decide)⟩,
   ⟨by decide, by decide,
     C7_classification_priority.2.1 [104, 101, 108, 108, 111] [98, 46, 106, 115, 111, 110]
       (by decide) (by decide)⟩,
   ⟨by decide, by decide,
     C7_classification_priority.2.2.1 [104, 101, 108, 108, 111] [98, 46, 122, 105, 112]
       (by decide) (by decide)⟩⟩

/-- Claim C8: archive failure is recoverable: for every buffer
classified as Zip, when no end-of-directory record is found process_zip
returns success, persists the raw bytes exactly when an output directory
and a name are supplied, and recurses into no member; and when the
archive collaborator fails to open the located slice it returns success
with no effect. -/
theorem C8_zip_failures_recoverable :
    ∀ (openArchive : List Nat → Option (List ZipMember))
      (processChild : List Nat → Option (List Nat) → ZipEffects)
      (data : List Nat) (zipName outputDir : Option (List Nat)),
      detect_file_type data zipName = FileType.Zip →
      (slice_to_eocd data = none →
        process_zip openArchive processChild data zipName outputDir =
          ⟨true,
           (match outputDir, zipName with
            | some _, some _ => [data]
            | _, _ => []),
           []⟩) ∧
      (∀ s, slice_to_eocd data = some s → openArchive s = none →
        process_zip openArchive processChild data zipName outputDir =
          ⟨true, [], []⟩) := by
  intro openArchive processChild data zipName outputDir hdet
  constructor
  · intro hnone
    unfold process_zip
    simp only [hnone]
  · intro s hs ho
    unfold process_zip
    simp only [hs, ho]

/-- Witness for C8: a buffer with only a local-file magic has no
end-of-directory record, so the raw bytes are persisted and no member is
visited; and a bare end-of-directory record whose located slice the
collaborator refuses to open yields success with no effect. -/
theorem C8_zip_failures_recoverable_witness :
    (detect_file_type [80, 75, 3, 4, 1, 2, 3, 4] (some [97]) = FileType.Zip ∧
      slice_to_eocd [80, 75, 3, 4, 1, 2, 3, 4] = none ∧
      process_zip (fun _ => none) (fun _ _ => ⟨true, [], []⟩)
          [80, 75, 3, 4, 1, 2, 3, 4] (some [97]) (some [98]) =
        ⟨true, [[80, 75, 3, 4, 1, 2, 3, 4]], []⟩) ∧
    (detect_file_type ([80, 75, 5, 6] ++ List.replicate 18 0)
        (some [97, 46, 122, 105, 112]) = FileType.Zip ∧
      slice_to_eocd ([80, 75, 5, 6] ++ List.replicate 18 0) =
        some ([80, 75, 5, 6] ++ List.replicate 18 0) ∧
      process_zip (fun _ => none) (fun _ _ => ⟨true, [], []⟩)
          ([80, 75, 5, 6] ++ List.replicate 18 0) (some [97, 46, 122, 105, 112])
          (some [98]) =
        ⟨true, [], []⟩) :=
  ⟨⟨by decide, by decide,
     (C8_zip_failures_recoverable (fun _ => none) (fun _ _ => ⟨true, [], []⟩)
       [80, 75, 3, 4, 1, 2, 3, 4] (some [97]) (some [98]) (by decide)).1 (by decide)⟩,
   ⟨by decide, by decide,
     (C8_zip_failures_recoverable (fun _ => none) (fun _ _ => ⟨true, [], []⟩)
       ([80, 75, 5, 6] ++ List.replicate 18 0) (some [97, 46, 122, 105, 112])
       (some [98]) (by decide)).2
       ([80, 75, 5, 6] ++ List.replicate 18 0) (by decide) rfl⟩⟩

/-- Claim C9: the container parse loop terminates on every input: each
non-breaking iteration strictly increases the scan position, an
iteration budget exceeding the bytes remaining is irrelevant to the
result, and parse_file_entries is the loop run from position 0 with
budget one more than the buffer length. -/
theorem C9_parse_loop_terminates :
    (∀ (b : List Nat) (pos p2 : Nat) (oe : Option FileEntry),
      parseStep b pos = some (oe, p2) → pos < p2) ∧
    (∀ (b : List Nat) (f g pos : Nat),
      b.length - pos < f → b.length - pos < g → parseGo b pos f = parseGo b pos g) ∧
    (∀ b : List Nat, parse_file_entries b = parseGo b 0 (b.length + 1)) :=
  ⟨fun _ _ _ _ h => parseStep_progress h,
   fun _ f g pos hf hg => parseGo_irrel f g pos hf hg,
   fun _ => rfl⟩

/-- Witness for C9 at the framing of trickySpec: the first iteration
moves the position from 0 to 76, and any two sufficient budgets give the
same parse. -/
theorem C9_parse_loop_terminates_witness :
    (parseStep (buildEntry trickySpec) 0 = some (some trickyEntry, 76) ∧ 0 < 76) ∧
    ((buildEntry trickySpec).length - 0 < 77 ∧ (buildEntry trickySpec).length - 0 < 200 ∧
      parseGo (buildEntry trickySpec) 0 77 = parseGo (buildEntry trickySpec) 0 200) :=
  ⟨⟨by decide,
     C9_parse_loop_terminates.1 (buildEntry trickySpec) 0 76 (some trickyEntry)
      (by decide)⟩,
   ⟨by decide, by decide,
     C9_parse_loop_terminates.2.1 (buildEntry trickySpec) 77 200 0 (by decide)
       (by decide)⟩⟩

/-- Counterexample to C10 as stated: a buffer whose first four bytes are
zero and whose fifth byte is 21 classifies as AutelContainer, not
UpgEsc, when the container marker also occurs early in the buffer: the
container scan precedes the ESC rule. -/
theorem C10_counterexample_container_first :
    detect_file_type ([0, 0, 0, 0, 21] ++ ftPat14) none = FileType.AutelContainer ∧
    detect_file_type ([0, 0, 0, 0, 21] ++ ftPat14) none ≠ FileType.UpgEsc := by
  decide

/-- Claim C10 (amended): provided the container marker scan does not
match — in particular for every buffer shorter than 16 bytes — four
leading zero bytes with a fifth byte between 20 and 23 inclusive
classify as UpgEsc; concretely four zeros then byte 21 gives UpgEsc and
four zeros then byte 24 does not. -/
theorem C10_esc_range_amended :
    (∀ d : List Nat, 5 ≤ d.length → sliceL d 0 4 = [0, 0, 0, 0] →
      20 ≤ nthD d 4 → nthD d 4 ≤ 23 → containerHit d = false →
      detect_file_type d none = FileType.UpgEsc) ∧
    detect_file_type [0, 0, 0, 0, 21] none = FileType.UpgEsc ∧
    detect_file_type [0, 0, 0, 0, 24] none ≠ FileType.UpgEsc :=
  ⟨detect_esc_amended, by decide, by decide⟩

/-- Witness for C10 at the five-byte buffer of four zeros then byte 21:
the container scan does not match and the tag is UpgEsc. -/
theorem C10_esc_range_amended_witness :
    5 ≤ [(0 : Nat), 0, 0, 0, 21].length ∧
    containerHit [0, 0, 0, 0, 21] = false ∧
    detect_file_type [0, 0, 0, 0, 21] none = FileType.UpgEsc :=
  ⟨by decide, by decide,
    C10_esc_range_amended.1 [0, 0, 0, 0, 21] (by decide) (by decide) (by decide)
      (by decide) (by decide)⟩

end AutelFw
